import Mathlib

/-!
Shallow embedding of the boundary-discretisation core of the slsm
level-set library (the `Boundary` class of `Boundary.cpp`), together with
proofs about it.

Conventions of the embedding:

* Coordinates, signed-distance values and movement limits are embedded as
  rationals: every coordinate produced by the discretisation is a rational
  function of the nodal signed-distance values, and every comparison made
  by the code is a rational comparison.
* Quantities that pass through `sqrt` (segment lengths, boundary length,
  normal vectors) live in an abstract field `R` together with an abstract
  square-root map `rt : ℚ → R` applied to the (rational) squared length.
  The theorems instantiate `R := ℝ` and `rt q := Real.sqrt q`.  Keeping
  `R` abstract keeps every definition executable.
* The mesh collaborator (`Mesh.h`) is not part of the repository sources
  available here.  Its structured-grid layout, the node/element status
  flag values and the narrow-band interface are modelled from the spec:
  nodes sit at integer coordinates of a `width × height` grid of unit
  quad elements whose corners are listed counter-clockwise starting at
  the bottom-left (this is forced by the edge bookkeeping in `isAdded`),
  and the status enumerations are distinct bit flags with
  `CUT = INSIDE | OUTSIDE`, as required by the bit tests in the code.
* `std::vector` growth by assignment-within-size is modelled by
  append-only lists; the pre-allocated capacity of `discretise` is
  modelled separately by `allocSize`.
-/

namespace Slsm

/-- Embedding of `Coord`: a two-dimensional coordinate. -/
structure Coord where
  x : ℚ
  y : ℚ
deriving DecidableEq, Repr

instance : Inhabited Coord := ⟨⟨0, 0⟩⟩

/-- Embedding of the `BoundaryPoint` struct of `Boundary.h`, including the
adjacency fields (`segments`, `neighbours`, `normal`) that `Boundary.cpp`
uses.  Lengths, sensitivities and the normal live in the abstract field
`R`. -/
structure BoundaryPoint (R : Type) where
  coord : Coord
  length : R
  negativeLimit : ℚ
  positiveLimit : ℚ
  isDomain : Bool
  sensitivities : List R
  segments : List Nat
  neighbours : List Nat
  normal : R × R

/-- Embedding of the `BoundarySegment` struct of `Boundary.h`.  The source
field `end` is called `stop` here because `end` is reserved in Lean. -/
structure BoundarySegment (R : Type) where
  start : Nat
  stop : Nat
  element : Nat
  length : R
  weight : R

instance {R : Type} [Field R] : Inhabited (BoundaryPoint R) :=
  ⟨{ coord := ⟨0, 0⟩, length := 0, negativeLimit := 0, positiveLimit := 0,
     isDomain := false, sensitivities := [], segments := [], neighbours := [],
     normal := (0, 0) }⟩

instance {R : Type} [Field R] : Inhabited (BoundarySegment R) :=
  ⟨{ start := 0, stop := 0, element := 0, length := 0, weight := 0 }⟩

/-! ### The structured mesh

Modelled from the spec: `Mesh.h` is not among the sources, and the spec
describes the mesh collaborator as a structured grid exposing node
coordinates, 4-node element connectivity and grid width/height. -/

/-- Index of the node at integer grid position `(x, y)`. -/
def nodeIndex (w x y : Nat) : Nat := y * (w + 1) + x

/-- Number of nodes of a `w × h` element grid. -/
def nNodes (w h : Nat) : Nat := (w + 1) * (h + 1)

/-- Number of elements of a `w × h` element grid. -/
def nElements (w h : Nat) : Nat := w * h

/-- Coordinate of node `n` (as rationals). -/
def nodeCoordQ (w n : Nat) : Coord := ⟨(n % (w + 1) : Nat), (n / (w + 1) : Nat)⟩

/-- The `j`-th corner node of element `i`; corners are listed
counter-clockwise from the bottom-left, matching the edge direction
bookkeeping in `Boundary::isAdded` (edge 0 bottom, 1 right, 2 top,
3 left). -/
def elemNodes (w i j : Nat) : Nat :=
  let ex := i % w
  let ey := i / w
  if j = 0 then nodeIndex w ex ey
  else if j = 1 then nodeIndex w (ex + 1) ey
  else if j = 2 then nodeIndex w (ex + 1) (ey + 1)
  else nodeIndex w ex (ey + 1)

/-- Centre of element `i` (the `element.coord` of the C++ mesh). -/
def elemCentre (w i : Nat) : Coord :=
  ⟨(i % w : Nat) + 1/2, (i / w : Nat) + 1/2⟩

/-- Whether node `n` lies on the edge of the rectangular domain
(the `node.isDomain` flag of the C++ mesh). -/
def nodeIsDomain (w h n : Nat) : Bool :=
  (n % (w + 1) = 0) || (n % (w + 1) = w) || (n / (w + 1) = 0) || (n / (w + 1) = h)

/-! ### Status flags

Modelled from the spec: the status enumerations live in the missing
`Mesh.h`.  The spec describes the statuses as mutually exclusive, and the
code tests them with bitwise operations (including
`(status1 | status2) == NodeStatus::CUT`), which forces distinct
power-of-two flags with `CUT = INSIDE | OUTSIDE`. -/

/-- NodeStatus flag: no status. -/
abbrev NodeStatusNONE : Nat := 0
/-- NodeStatus flag: the node is inside the structure. -/
abbrev NodeStatusINSIDE : Nat := 1
/-- NodeStatus flag: the node is outside the structure. -/
abbrev NodeStatusOUTSIDE : Nat := 2
/-- NodeStatus flag: the edge is cut (`INSIDE ||| OUTSIDE`). -/
abbrev NodeStatusCUT : Nat := 3
/-- NodeStatus flag: the node lies on the boundary contour. -/
abbrev NodeStatusBOUNDARY : Nat := 4

/-- ElementStatus flag: no status (an ambiguous, cut element). -/
abbrev ElementStatusNONE : Nat := 0
/-- ElementStatus flag: the element is inside the structure. -/
abbrev ElementStatusINSIDE : Nat := 1
/-- ElementStatus flag: the element is outside the structure. -/
abbrev ElementStatusOUTSIDE : Nat := 2
/-- ElementStatus flag: a 4-cut element whose centre is inside. -/
abbrev ElementStatusCENTREINSIDE : Nat := 8
/-- ElementStatus flag: a 4-cut element whose centre is outside. -/
abbrev ElementStatusCENTREOUTSIDE : Nat := 16

/-- Node classification of `Boundary::computeMeshStatus`: boundary within
`1e-6` of the zero contour, otherwise outside for negative and inside for
positive signed distance. -/
def nodeStatusOf (sd : Nat → ℚ) (n : Nat) : Nat :=
  if |sd n| < 1/1000000 then NodeStatusBOUNDARY
  else if sd n < 0 then NodeStatusOUTSIDE
  else NodeStatusINSIDE

/-- Number of corners of element `i` whose node status has the `INSIDE`
bit (the `tallyInside` counter of `computeMeshStatus`). -/
def tallyInside (w : Nat) (sd : Nat → ℚ) (i : Nat) : Nat :=
  ((List.range 4).filter
    (fun j => decide (nodeStatusOf sd (elemNodes w i j) &&& NodeStatusINSIDE ≠ 0))).length

/-- Number of corners of element `i` whose node status has the `OUTSIDE`
bit (the `tallyOutside` counter of `computeMeshStatus`). -/
def tallyOutside (w : Nat) (sd : Nat → ℚ) (i : Nat) : Nat :=
  ((List.range 4).filter
    (fun j => decide (nodeStatusOf sd (elemNodes w i j) &&& NodeStatusOUTSIDE ≠ 0))).length

/-- Element classification of `Boundary::computeMeshStatus`: inside when no
corner is outside, outside when no corner is inside, otherwise none. -/
def elemStatusInit (w : Nat) (sd : Nat → ℚ) (i : Nat) : Nat :=
  if tallyOutside w sd i = 0 then ElementStatusINSIDE
  else if tallyInside w sd i = 0 then ElementStatusOUTSIDE
  else ElementStatusNONE

/-- The storage pre-allocation of `Boundary::discretise`:
`size = std::max(4, int(0.2 * nNodes))` (`int(0.2 * n)` equals `n / 5`
at every size used below). -/
def allocSize (n : Nat) : Nat := max 4 (n / 5)

/-! ### Discretisation state -/

/-- The mutable state threaded through `Boundary::discretise`: the point
and segment vectors, the running boundary length, the per-node
boundary-point lookup lists (`node.boundaryPoints`), the element statuses
and the per-element segment lookup lists (`element.boundarySegments`). -/
structure BState (R : Type) where
  points : List (BoundaryPoint R)
  segments : List (BoundarySegment R)
  length : R
  nodeBP : Nat → List Nat
  elemStatus : Nat → Nat
  elemSegs : Nat → List Nat

variable {R : Type}

/-- Coordinate of boundary point `i` (out-of-range reads return the
default point; they never occur on the reachable states). -/
def pointCoord [Field R] (points : List (BoundaryPoint R)) (i : Nat) : Coord :=
  (points.getD i default).coord

/-- The coordinate computation of `Boundary::isAdded`: the position of a
boundary point at distance `d` from `node` along element edge `edge`
(0 bottom, 1 right, 2 top, 3 left). -/
def isAddedCoord (w node edge : Nat) (distance : ℚ) : Coord :=
  let c := nodeCoordQ w node
  if edge = 0 then ⟨c.x + distance, c.y⟩
  else if edge = 1 then ⟨c.x, c.y + distance⟩
  else if edge = 2 then ⟨c.x - distance, c.y⟩
  else ⟨c.x, c.y - distance⟩

/-- The search of `Boundary::isAdded`: the first boundary point in the
node's lookup list `bps` whose coordinates agree with `c` within `1e-6`
in both components, `none` when there is none (the C++ code returns the
index, or `-1` for "not found"). -/
def isAdded [Field R] (points : List (BoundaryPoint R)) (bps : List Nat) (c : Coord) :
    Option Nat :=
  bps.find? (fun idx =>
    decide (|c.x - (pointCoord points idx).x| < 1/1000000) &&
    decide (|c.y - (pointCoord points idx).y| < 1/1000000))

/-- Embedding of `Boundary::initialisePoint`: zero integral length, two
sensitivity slots, movement limits `±moveLimit`, with the negative limit
clamped to the distance to the domain edge when that distance is below
half a grid spacing, and the domain flag set when it is below `1e-6`. -/
def initialisePoint [Field R] (w h : Nat) (ml : ℚ) (c : Coord) : BoundaryPoint R :=
  let p0 : BoundaryPoint R :=
    { coord := c, length := 0, negativeLimit := -ml, positiveLimit := ml,
      isDomain := false, sensitivities := [0, 0], segments := [], neighbours := [],
      normal := (0, 0) }
  let minX := min c.x ((w : ℚ) - c.x)
  let minY := min c.y ((h : ℚ) - c.y)
  let minBoundary := min minX minY
  if minBoundary < 1/2 then
    { p0 with negativeLimit := -minBoundary,
              isDomain := decide (minBoundary < 1/1000000) }
  else p0

/-- Embedding of `Boundary::segmentLength`: the Euclidean distance between
the segment's endpoint coordinates (`rt` applied to the rational squared
distance). -/
def segmentLength [Field R] (rt : ℚ → R) (points : List (BoundaryPoint R))
    (s : BoundarySegment R) : R :=
  let p1 := pointCoord points s.start
  let p2 := pointCoord points s.stop
  rt ((p1.x - p2.x) * (p1.x - p2.x) + (p1.y - p2.y) * (p1.y - p2.y))

/-- Create a new boundary point at `c`, registering its index in the
lookup list of every node in `ns` (the `mesh.nodes[..].boundaryPoints`
updates of `discretise`); returns the new state and the new index. -/
def createPoint [Field R] (w h : Nat) (ml : ℚ) (st : BState R) (ns : List Nat)
    (c : Coord) : BState R × Nat :=
  ({ st with
      points := st.points ++ [initialisePoint w h ml c],
      nodeBP := fun n => if n ∈ ns then st.nodeBP n ++ [st.points.length]
                         else st.nodeBP n },
   st.points.length)

/-- Look up (via `isAdded` with edge 0 and distance 0) or create the
boundary point sitting exactly on mesh node `node`. -/
def lookupOrCreate [Field R] (w h : Nat) (ml : ℚ) (st : BState R) (node : Nat) :
    BState R × Nat :=
  let c := nodeCoordQ w node
  match isAdded st.points (st.nodeBP node) c with
  | some index => (st, index)
  | none => createPoint w h ml st [node] c

/-- Append a boundary segment from point `s` to point `e` owned by
element `i`: compute its length, add it to the running boundary length,
register it in the element's segment lookup and push it on the segment
vector. -/
def addSegment [Field R] (rt : ℚ → R) (st : BState R) (i s e : Nat) : BState R :=
  let seg0 : BoundarySegment R := { start := s, stop := e, element := i, length := 0, weight := 0 }
  let L := segmentLength rt st.points seg0
  { st with
      segments := st.segments ++ [{ seg0 with length := L }],
      length := st.length + L,
      elemSegs := fun k => if k = i then st.elemSegs k ++ [st.segments.length]
                           else st.elemSegs k }

/-- Accumulator of the per-element edge loop of `discretise`: the global
state plus the `boundaryPoints[nCut]` array of cut-edge point indices. -/
structure EdgeAcc (R : Type) where
  st : BState R
  cutPts : List Nat

/-- One iteration of the edge loop of `discretise` (edge `j` of element
`i`): when both edge nodes are active (or a target field is being
discretised), a cut edge interpolates a boundary point (deduplicated via
`isAdded`) and records it in `cutPts`, and an edge whose two nodes both
lie on the boundary immediately creates a segment between the two node
points. -/
def processEdge [Field R] (rt : ℚ → R) (w h : Nat) (ml : ℚ) (sd : Nat → ℚ)
    (isTarget : Bool) (isActive : Nat → Bool) (i : Nat) (acc : EdgeAcc R) (j : Nat) :
    EdgeAcc R :=
  let n1 := elemNodes w i j
  let n2 := elemNodes w i ((j + 1) % 4)
  if isTarget || (isActive n1 && isActive n2) then
    if (nodeStatusOf sd n1 ||| nodeStatusOf sd n2) = NodeStatusCUT then
      let d := sd n1 / (sd n1 - sd n2)
      let c := isAddedCoord w n1 j d
      match isAdded acc.st.points (acc.st.nodeBP n1) c with
      | some index => { acc with cutPts := acc.cutPts ++ [index] }
      | none =>
          let r := createPoint w h ml acc.st [n1, n2] c
          { st := r.1, cutPts := acc.cutPts ++ [r.2] }
    else if nodeStatusOf sd n1 &&& NodeStatusBOUNDARY ≠ 0 ∧
            nodeStatusOf sd n2 &&& NodeStatusBOUNDARY ≠ 0 then
      let r1 := lookupOrCreate w h ml acc.st n1
      let r2 := lookupOrCreate w h ml r1.1 n2
      { acc with st := addSegment rt r2.1 i r1.2 r2.2 }
    else acc
  else acc

/-- The edge loop of `discretise` over the four edges of element `i`. -/
def edgePhase [Field R] (rt : ℚ → R) (w h : Nat) (ml : ℚ) (sd : Nat → ℚ)
    (isTarget : Bool) (isActive : Nat → Bool) (st : BState R) (i : Nat) : EdgeAcc R :=
  [0, 1, 2, 3].foldl (processEdge rt w h ml sd isTarget isActive i) ⟨st, []⟩

/-- One iteration of the node loop of the `nCut == 1` case: a corner on
the boundary contour with an outside neighbour is connected to the single
interpolated cut point `bp0`. -/
def oneCutNode [Field R] (rt : ℚ → R) (w h : Nat) (ml : ℚ) (sd : Nat → ℚ)
    (i bp0 : Nat) (st : BState R) (j : Nat) : BState R :=
  let node := elemNodes w i j
  if nodeStatusOf sd node &&& NodeStatusBOUNDARY ≠ 0 then
    let nAfter := elemNodes w i ((j + 1) % 4)
    let nBefore := elemNodes w i ((j + 3) % 4)
    if nodeStatusOf sd nAfter &&& NodeStatusOUTSIDE ≠ 0 ∨
       nodeStatusOf sd nBefore &&& NodeStatusOUTSIDE ≠ 0 then
      let r := lookupOrCreate w h ml st node
      addSegment rt r.1 i bp0 r.2
    else st
  else st

/-- The `nCut == 0` diagonal case of `discretise`: the (first two)
boundary-status corners of the ambiguous element are connected directly. -/
def diagonalCase [Field R] (rt : ℚ → R) (w h : Nat) (ml : ℚ) (sd : Nat → ℚ)
    (i : Nat) (st : BState R) : BState R :=
  let bnodes := ((List.range 4).filter
      (fun j => decide (nodeStatusOf sd (elemNodes w i j) &&& NodeStatusBOUNDARY ≠ 0))).map
    (fun j => elemNodes w i j)
  let r1 := lookupOrCreate w h ml st (bnodes.getD 0 0)
  let r2 := lookupOrCreate w h ml r1.1 (bnodes.getD 1 0)
  addSegment rt r2.1 i r1.2 r2.2

/-- Processing of one element of the element loop of `discretise`:
elements outside the structure are skipped; otherwise the edge loop runs
and the cut count is dispatched exactly as in the source (2 cuts: direct
segment; 1 cut: segment to a boundary corner with an outside neighbour;
4 cuts: two segments paired by the sign of the nodal signed-distance sum,
and the element status is updated to centre-inside or centre-outside;
0 cuts on a not-inside element: the diagonal case). -/
def processElement [Field R] (rt : ℚ → R) (w h : Nat) (ml : ℚ) (sd : Nat → ℚ)
    (isTarget : Bool) (isActive : Nat → Bool) (st : BState R) (i : Nat) : BState R :=
  if st.elemStatus i ≠ ElementStatusOUTSIDE then
    let acc := edgePhase rt w h ml sd isTarget isActive st i
    let st1 := acc.st
    let bps := acc.cutPts
    if bps.length = 2 then
      addSegment rt st1 i (bps.getD 0 0) (bps.getD 1 0)
    else if bps.length = 1 then
      [0, 1, 2, 3].foldl (oneCutNode rt w h ml sd i (bps.getD 0 0)) st1
    else if bps.length = 4 then
      let lsfSum := sd (elemNodes w i 0) + sd (elemNodes w i 1)
                  + sd (elemNodes w i 2) + sd (elemNodes w i 3)
      let status := nodeStatusOf sd (elemNodes w i 0)
      let st2 :=
        if (status &&& NodeStatusINSIDE ≠ 0 ∧ 0 < lsfSum) ∨
           (status &&& NodeStatusOUTSIDE ≠ 0 ∧ lsfSum < 0) then
          addSegment rt (addSegment rt st1 i (bps.getD 0 0) (bps.getD 1 0)) i
            (bps.getD 2 0) (bps.getD 3 0)
        else
          addSegment rt (addSegment rt st1 i (bps.getD 0 0) (bps.getD 3 0)) i
            (bps.getD 1 0) (bps.getD 2 0)
      { st2 with elemStatus := fun k =>
          if k = i then (if 0 < lsfSum then ElementStatusCENTREINSIDE
                         else ElementStatusCENTREOUTSIDE)
          else st2.elemStatus k }
    else if bps.length = 0 ∧ st1.elemStatus i ≠ ElementStatusINSIDE then
      diagonalCase rt w h ml sd i st1
    else st1
  else st

/-- The element loop of `discretise`, started from the state produced by
`computeMeshStatus` (statuses computed, lookup lists reset, no points or
segments, zero length). -/
def discretiseLoop [Field R] (rt : ℚ → R) (w h : Nat) (ml : ℚ) (sd : Nat → ℚ)
    (isTarget : Bool) (isActive : Nat → Bool) : BState R :=
  (List.range (nElements w h)).foldl (processElement rt w h ml sd isTarget isActive)
    { points := [], segments := [], length := 0,
      nodeBP := fun _ => [], elemStatus := elemStatusInit w sd, elemSegs := fun _ => [] }

/-- The per-endpoint update of `Boundary::computePointLengths` for one
endpoint `idx` of segment `segIdx`: add half the segment length to the
point's integral length, record the segment in the point's segment lookup
and the other endpoint `nb` as a neighbour. -/
def pointAddSeg [Field R] (ps : List (BoundaryPoint R)) (idx : Nat) (halfL : R)
    (segIdx nb : Nat) : List (BoundaryPoint R) :=
  ps.set idx
    (let p := ps.getD idx default
     { p with length := p.length + halfL,
              segments := p.segments ++ [segIdx],
              neighbours := p.neighbours ++ [nb] })

/-- Embedding of `Boundary::computePointLengths`: every segment
contributes half its length to each of its two endpoints and registers
the point-to-segment and neighbour adjacency. -/
def computePointLengths [Field R] (st : BState R) : BState R :=
  { st with points := st.segments.enum.foldl (fun ps x =>
      let i := x.1
      let s := x.2
      let ps1 := pointAddSeg ps s.start ((1/2 : R) * s.length) i s.stop
      pointAddSeg ps1 s.stop ((1/2 : R) * s.length) i s.start) st.points }

/-- Embedding of `Boundary::discretise`: select the current or the target
signed-distance field, run `computeMeshStatus` and the element loop, and
derive the per-point integral lengths. -/
def discretise [Field R] (rt : ℚ → R) (w h : Nat) (ml : ℚ)
    (signedDistance target : Nat → ℚ) (isTarget : Bool) (isActive : Nat → Bool) :
    BState R :=
  let sd := if isTarget then target else signedDistance
  computePointLengths (discretiseLoop rt w h ml sd isTarget isActive)

/-! ### Area fractions -/

/-- Embedding of `Boundary::isClockwise` (restricted to its reachable
branches: the code after the unconditional `return` on the cross product
is dead).  The C++ comparator returns a `bool`; coordinate comparisons
are exact rational comparisons here. -/
def isClockwise (point1 point2 centre : Coord) : Bool :=
  if point1.x - centre.x ≥ 0 ∧ point2.x - centre.x < 0 then false
  else if point1.x - centre.x < 0 ∧ point2.x - centre.x ≥ 0 then true
  else if point1.x - centre.x = 0 ∧ point2.x - centre.x = 0 then
    (if point1.y - centre.y ≥ 0 ∨ point2.y - centre.y ≥ 0 then
      decide (point1.y ≤ point2.y)
     else decide (point2.y ≤ point1.y))
  else
    let det := (point1.x - centre.x) * (point2.y - centre.y)
             - (point2.x - centre.x) * (point1.y - centre.y)
    decide (0 ≤ det)

/-- Embedding of `Boundary::polygonArea`: sort the vertices with the
`isClockwise` comparator (the C++ code calls `std::sort`, whose exact
permutation is unspecified; an insertion sort with the same comparator is
used here) and evaluate the shoelace formula, returning the absolute
value of half the signed sum. -/
def polygonArea (vertices : List Coord) (centre : Coord) : ℚ :=
  let sorted := vertices.insertionSort (fun a b => isClockwise a b centre = true)
  let n := sorted.length
  let a := (List.range n).foldl (fun a i =>
      let j := if i = n - 1 then 0 else i + 1
      a + (sorted.getD i default).x * (sorted.getD j default).y
        - (sorted.getD j default).x * (sorted.getD i default).y) 0
  |a * (1/2)|

/-- The vertex collection of `Boundary::cutArea`: the element corners on
the matching side (outside for a centre-outside element, inside
otherwise), the boundary-status corners both of whose edge neighbours are
inside, and the start and end points of every boundary segment owned by
the element. -/
def cutVertices [Field R] (w : Nat) (ns : Nat → Nat) (st : BState R) (i : Nat) :
    List Coord :=
  let status := if st.elemStatus i &&& ElementStatusCENTREOUTSIDE ≠ 0 then
    NodeStatusOUTSIDE else NodeStatusINSIDE
  let nodeVerts := (List.range 4).foldl (fun vs j =>
    let node := elemNodes w i j
    if ns node &&& status ≠ 0 then vs ++ [nodeCoordQ w node]
    else if ns node &&& NodeStatusBOUNDARY ≠ 0 then
      let n1 := elemNodes w i ((j + 1) % 4)
      let n2 := elemNodes w i ((j + 3) % 4)
      if ns n1 &&& NodeStatusINSIDE ≠ 0 ∧ ns n2 &&& NodeStatusINSIDE ≠ 0 then
        vs ++ [nodeCoordQ w node]
      else vs
    else vs) []
  (st.elemSegs i).foldl (fun vs s =>
    vs ++ [pointCoord st.points (st.segments.getD s default).start,
           pointCoord st.points (st.segments.getD s default).stop]) nodeVerts

/-- Embedding of `Boundary::cutArea`: the polygon area of the collected
vertices around the element centre, and one minus that area when the
element resolved to centre-outside (the vertices then describe the
outside polygon). -/
def cutArea [Field R] (w : Nat) (ns : Nat → Nat) (st : BState R) (i : Nat) : ℚ :=
  let verts := cutVertices w ns st i
  if st.elemStatus i &&& ElementStatusCENTREOUTSIDE ≠ 0 then
    1 - polygonArea verts (elemCentre w i)
  else polygonArea verts (elemCentre w i)

/-- The per-element assignment of `Boundary::computeAreaFractions`
(the value stored in `mesh.elements[i].area`): one inside, zero outside,
otherwise the polygon-clipping cut area. -/
def elementArea [Field R] (w : Nat) (ns : Nat → Nat) (st : BState R) (i : Nat) : ℚ :=
  if st.elemStatus i &&& ElementStatusINSIDE ≠ 0 then 1
  else if st.elemStatus i &&& ElementStatusOUTSIDE ≠ 0 then 0
  else cutArea w ns st i

/-- Embedding of `Boundary::computeAreaFractions`: the running total of
the per-element areas over all elements. -/
def computeAreaFractions [Field R] (w h : Nat) (ns : Nat → Nat) (st : BState R) : ℚ :=
  (List.range (nElements w h)).foldl (fun a i => a + elementArea w ns st i) 0

/-! ### Normal vectors -/

/-- Accumulator of `Boundary::computeNormalVectors`: per-point normal
estimate, weight and the short-circuit flag. -/
structure NVAcc (R : Type) where
  normal : Nat → R × R
  weight : Nat → R
  isSet : Nat → Bool

/-- The central-difference gradient of the signed-distance field at node
`n` (the `gradX`, `gradY` computation of `computeNormalVectors`). -/
def gradAt (w : Nat) (sd : Nat → ℚ) (n : Nat) : ℚ × ℚ :=
  let x := n % (w + 1)
  let y := n / (w + 1)
  ((sd (nodeIndex w (x + 1) y) - sd (nodeIndex w (x - 1) y)) * (1/2),
   (sd (nodeIndex w x (y + 1)) - sd (nodeIndex w x (y - 1))) * (1/2))

/-- Processing of one narrow-band node of `computeNormalVectors`: a node
with adjacent boundary points that is not on the domain edge normalises
its gradient and scatters it to each adjacent boundary point, weighted by
the inverse squared distance, with an exact coincidence (squared distance
below `1e-6`) short-circuiting the average. -/
def nvNodeStep [Field R] (rtr : R → R) (w h : Nat) (sd : Nat → ℚ)
    (points : List (BoundaryPoint R)) (nodeBP : Nat → List Nat) (a : NVAcc R)
    (node : Nat) : NVAcc R :=
  if 0 < (nodeBP node).length ∧ nodeIsDomain w h node = false then
    let g := gradAt w sd node
    let grad : R := rtr ((g.1 * g.1 + g.2 * g.2 : ℚ) : R)
    let xNormal : R := (g.1 : R) / grad
    let yNormal : R := (g.2 : R) / grad
    (nodeBP node).foldl (fun a pt =>
      let dx := (nodeCoordQ w node).x - (pointCoord points pt).x
      let dy := (nodeCoordQ w node).y - (pointCoord points pt).y
      let rSqd := dx * dx + dy * dy
      if rSqd < 1/1000000 then
        { normal := fun k => if k = pt then (xNormal, yNormal) else a.normal k,
          weight := fun k => if k = pt then 1 else a.weight k,
          isSet := fun k => if k = pt then true else a.isSet k }
      else if a.isSet pt = false then
        { a with
            normal := fun k => if k = pt then
                ((a.normal pt).1 + xNormal / (rSqd : R),
                 (a.normal pt).2 + yNormal / (rSqd : R))
              else a.normal k,
            weight := fun k => if k = pt then a.weight pt + 1 / (rSqd : R)
                               else a.weight k }
      else a) a
  else a

/-- The accumulation phase of `computeNormalVectors` over the narrow-band
node list, starting from the zero-initialised per-point normals and
weights. -/
def nvAccum [Field R] (rtr : R → R) (w h : Nat) (sd : Nat → ℚ)
    (points : List (BoundaryPoint R)) (nodeBP : Nat → List Nat)
    (narrowBand : List Nat) : NVAcc R :=
  narrowBand.foldl (nvNodeStep rtr w h sd points nodeBP)
    ⟨fun _ => (0, 0), fun _ => 0, fun _ => false⟩

/-- The weighted average of the accumulated normal of point `i` (the
value of `points[i].normal` after the division by `weight[i]` and before
the renormalisation). -/
def nvPre [Field R] (a : NVAcc R) (i : Nat) : R × R :=
  ((a.normal i).1 / a.weight i, (a.normal i).2 / a.weight i)

/-- The final pass of `computeNormalVectors`: every non-domain point's
normal is the weighted average renormalised to unit length; domain points
are skipped by this pass (their normal keeps the accumulated value). -/
def nvFinal [Field R] (rtr : R → R) (points : List (BoundaryPoint R)) (a : NVAcc R) :
    List (BoundaryPoint R) :=
  points.enum.map (fun x =>
    let i := x.1
    let p := x.2
    if p.isDomain = false then
      let n0 := (a.normal i).1 / a.weight i
      let n1 := (a.normal i).2 / a.weight i
      let norm := rtr (n0 * n0 + n1 * n1)
      { p with normal := (n0 / norm, n1 / norm) }
    else { p with normal := a.normal i })

/-- Embedding of `Boundary::computeNormalVectors`: accumulate the
inverse-squared-distance-weighted nodal gradients over the narrow band,
then renormalise each non-domain point's averaged normal to unit length
(no error path exists: every division is performed unconditionally). -/
def computeNormalVectors [Field R] (rtr : R → R) (w h : Nat) (sd : Nat → ℚ)
    (narrowBand : List Nat) (st : BState R) : BState R :=
  let a := nvAccum rtr w h sd st.points st.nodeBP narrowBand
  { st with points := nvFinal rtr st.points a }

/-! ### Invariant predicates and concrete test inputs -/

/-- A coordinate lies inside (or on the edge of) the rectangular domain. -/
def inDomainRange (w h : Nat) (c : Coord) : Prop :=
  0 ≤ c.x ∧ c.x ≤ (w : ℚ) ∧ 0 ≤ c.y ∧ c.y ≤ (h : ℚ)

/-- The distance from a coordinate to the nearest domain edge, exactly as
`initialisePoint` computes it (`minBoundary`). -/
def minBoundaryDist (w h : Nat) (c : Coord) : ℚ :=
  min (min c.x ((w : ℚ) - c.x)) (min c.y ((h : ℚ) - c.y))

/-- A point as produced by `initialisePoint` at an in-domain coordinate:
this is the shape of every entry of the point vector during the element
loop of `discretise`. -/
def GoodPoint (R : Type) [Field R] (w h : Nat) (ml : ℚ) (p : BoundaryPoint R) : Prop :=
  inDomainRange w h p.coord ∧ p = initialisePoint w h ml p.coord

/-- The loop invariant of `discretise`: every index registered in a
node's boundary-point list is a valid point index, every segment's
endpoints are valid point indices, the running boundary length is the sum
of the stored segment lengths, and every stored point was produced by
`initialisePoint` at an in-domain coordinate. -/
def InvD (R : Type) [Field R] (w h : Nat) (ml : ℚ) (st : BState R) : Prop :=
  (∀ n idx, idx ∈ st.nodeBP n → idx < st.points.length) ∧
  (∀ s ∈ st.segments, s.start < st.points.length ∧ s.stop < st.points.length) ∧
  st.length = (st.segments.map (fun s => s.length)).sum ∧
  ∀ p ∈ st.points, GoodPoint R w h ml p

/-- The invariant of the edge loop: the state invariant plus validity of
the collected cut-point indices. -/
def EdgeInvP (R : Type) [Field R] (w h : Nat) (ml : ℚ) (a : EdgeAcc R) : Prop :=
  InvD R w h ml a.st ∧ ∀ b ∈ a.cutPts, b < a.st.points.length

/-- Sum of the integral lengths of a list of boundary points. -/
def lengthSum [Field R] (ps : List (BoundaryPoint R)) : R :=
  (ps.map (fun p => p.length)).sum

/-- Concrete signed-distance field on the 1 × 1 mesh exhibiting the
point-deduplication degeneracy: node 1 is barely outside
(`sd = -1e-6`, just past the boundary tolerance) and all other nodes are
inside, so the two interpolated cut points coincide within the `1e-6`
deduplication tolerance and are merged. -/
def sdDegenerate : Nat → ℚ := fun n => if n = 1 then -(1/1000000) else 1

/-- Concrete signed-distance field on the 2 × 2 mesh (9 nodes) with four
separate blobs at the domain corners: it produces 8 boundary points,
exceeding the pre-allocated storage `allocSize 9 = 4`. -/
def sdFourBlobs : Nat → ℚ := fun n => if n = 0 ∨ n = 2 ∨ n = 6 ∨ n = 8 then 1 else -1

/-- Concrete signed-distance field on the 1 × 1 mesh with strictly
alternating corner signs, driving the 4-cut case of `discretise`. -/
def sdAlternating : Nat → ℚ := fun n => if n = 0 ∨ n = 3 then 2 else -1

/-- A single non-domain boundary point at `(1, 1/2)` of a 2 × 2 mesh,
used as input state for the normal-vector computations. -/
def nvTestPoints (R : Type) [Field R] : List (BoundaryPoint R) :=
  [initialisePoint 2 2 (1/2) ⟨1, 1/2⟩]

/-- Node lookup lists for `nvTestPoints`: the single point is registered
to node 4 (the interior node `(1, 1)` of the 2 × 2 mesh). -/
def nvTestNodeBP : Nat → List Nat := fun n => if n = 4 then [0] else []

/-- A state carrying `nvTestPoints`, used as input to
`computeNormalVectors` in concrete instantiations. -/
def nvTestState (R : Type) [Field R] : BState R :=
  { points := nvTestPoints R, segments := [], length := 0,
    nodeBP := nvTestNodeBP, elemStatus := fun _ => 0, elemSegs := fun _ => [] }

/-- A signed-distance field whose gradient at node 4 of the 2 × 2 mesh is
`(1, 0)`: `sd = 2` at node 5 and `0` elsewhere. -/
def sdGradX : Nat → ℚ := fun n => if n = 5 then 2 else 0

/-- Concrete signed-distance field on the 1 × 1 mesh with alternating
corner signs and negative nodal sum, driving the 4-cut case into the
centre-outside resolution. -/
def sdCentreOut : Nat → ℚ := fun n => if n = 0 ∨ n = 3 then 1 else -2

/-! ### Basic structural lemmas -/

theorem foldl_inv {α σ : Type*} (P : σ → Prop) (f : σ → α → σ) (l : List α) (init : σ)
    (h0 : P init) (hstep : ∀ s a, a ∈ l → P s → P (f s a)) : P (l.foldl f init) := by
  induction l generalizing init with
  | nil => exact h0
  | cons x xs ih =>
      exact ih (f init x) (hstep init x (by simp) h0)
        (fun s a ha hs => hstep s a (by simp [ha]) hs)

theorem snd_mem_of_mem_enum {α : Type*} {x : Nat × α} {l : List α} (hx : x ∈ l.enum) :
    x.2 ∈ l := by
  obtain ⟨-, h⟩ := List.mem_enum (x := x.2) (i := x.1) hx
  exact h ▸ List.getElem_mem _

@[simp] theorem initialisePoint_coord [Field R] (w h : Nat) (ml : ℚ) (c : Coord) :
    (initialisePoint (R := R) w h ml c).coord = c := by
  unfold initialisePoint
  dsimp only
  split <;> rfl

@[simp] theorem initialisePoint_length [Field R] (w h : Nat) (ml : ℚ) (c : Coord) :
    (initialisePoint (R := R) w h ml c).length = 0 := by
  unfold initialisePoint
  dsimp only
  split <;> rfl

@[simp] theorem initialisePoint_sensitivities [Field R] (w h : Nat) (ml : ℚ) (c : Coord) :
    (initialisePoint (R := R) w h ml c).sensitivities = [0, 0] := by
  unfold initialisePoint
  dsimp only
  split <;> rfl

theorem createPoint_fst_points [Field R] (w h : Nat) (ml : ℚ) (st : BState R)
    (ns : List Nat) (c : Coord) :
    (createPoint w h ml st ns c).1.points = st.points ++ [initialisePoint w h ml c] := rfl

theorem createPoint_fst_segments [Field R] (w h : Nat) (ml : ℚ) (st : BState R)
    (ns : List Nat) (c : Coord) :
    (createPoint w h ml st ns c).1.segments = st.segments := rfl

theorem createPoint_fst_length [Field R] (w h : Nat) (ml : ℚ) (st : BState R)
    (ns : List Nat) (c : Coord) :
    (createPoint w h ml st ns c).1.length = st.length := rfl

theorem createPoint_fst_elemStatus [Field R] (w h : Nat) (ml : ℚ) (st : BState R)
    (ns : List Nat) (c : Coord) :
    (createPoint w h ml st ns c).1.elemStatus = st.elemStatus := rfl

theorem createPoint_fst_elemSegs [Field R] (w h : Nat) (ml : ℚ) (st : BState R)
    (ns : List Nat) (c : Coord) :
    (createPoint w h ml st ns c).1.elemSegs = st.elemSegs := rfl

theorem createPoint_snd [Field R] (w h : Nat) (ml : ℚ) (st : BState R)
    (ns : List Nat) (c : Coord) :
    (createPoint w h ml st ns c).2 = st.points.length := rfl

theorem createPoint_points_length [Field R] (w h : Nat) (ml : ℚ) (st : BState R)
    (ns : List Nat) (c : Coord) :
    (createPoint w h ml st ns c).1.points.length = st.points.length + 1 := by
  simp [createPoint_fst_points]

theorem addSegment_points [Field R] (rt : ℚ → R) (st : BState R) (i s e : Nat) :
    (addSegment rt st i s e).points = st.points := rfl

theorem addSegment_nodeBP [Field R] (rt : ℚ → R) (st : BState R) (i s e : Nat) :
    (addSegment rt st i s e).nodeBP = st.nodeBP := rfl

theorem addSegment_elemStatus [Field R] (rt : ℚ → R) (st : BState R) (i s e : Nat) :
    (addSegment rt st i s e).elemStatus = st.elemStatus := rfl

theorem addSegment_segments [Field R] (rt : ℚ → R) (st : BState R) (i s e : Nat) :
    (addSegment rt st i s e).segments = st.segments ++
      [{ start := s, stop := e, element := i,
         length := segmentLength rt st.points
           { start := s, stop := e, element := i, length := 0, weight := 0 },
         weight := 0 }] := rfl

theorem addSegment_length [Field R] (rt : ℚ → R) (st : BState R) (i s e : Nat) :
    (addSegment rt st i s e).length = st.length + segmentLength rt st.points
      { start := s, stop := e, element := i, length := 0, weight := 0 } := rfl

/-! ### Mesh geometry lemmas -/

theorem nodeIndex_lt {w h x y : Nat} (hx : x ≤ w) (hy : y ≤ h) :
    nodeIndex w x y < nNodes w h := by
  unfold nodeIndex nNodes
  have h1 : y * (w + 1) + x ≤ h * (w + 1) + w :=
    Nat.add_le_add (Nat.mul_le_mul_right _ hy) hx
  have h2 : h * (w + 1) + w < (w + 1) * (h + 1) := by
    have h3 : (w + 1) * (h + 1) = h * (w + 1) + (w + 1) := by ring
    rw [h3]
    exact Nat.add_lt_add_left (Nat.lt_succ_self w) _
  exact lt_of_le_of_lt h1 h2

theorem elemNodes_lt {w h i : Nat} (j : Nat) (hi : i < nElements w h) :
    elemNodes w i j < nNodes w h := by
  have hw : 0 < w := by
    rcases Nat.eq_zero_or_pos w with hw | hw
    · subst hw; simp [nElements] at hi
    · exact hw
  have hex : i % w < w := Nat.mod_lt _ hw
  have hey : i / w < h := by
    rw [Nat.div_lt_iff_lt_mul hw]
    have := hi
    rw [nElements, Nat.mul_comm] at this
    exact this
  unfold elemNodes
  dsimp only
  split
  · exact nodeIndex_lt (Nat.le_of_lt hex) (Nat.le_of_lt hey)
  · split
    · exact nodeIndex_lt hex (Nat.le_of_lt hey)
    · split
      · exact nodeIndex_lt hex hey
      · exact nodeIndex_lt (Nat.le_of_lt hex) hey

theorem nodeCoordQ_x (w n : Nat) : (nodeCoordQ w n).x = ((n % (w + 1) : Nat) : ℚ) := rfl

theorem nodeCoordQ_y (w n : Nat) : (nodeCoordQ w n).y = ((n / (w + 1) : Nat) : ℚ) := rfl

theorem nodeCoordQ_nodeIndex {w x y : Nat} (hx : x ≤ w) :
    nodeCoordQ w (nodeIndex w x y) = ⟨(x : ℚ), (y : ℚ)⟩ := by
  unfold nodeCoordQ nodeIndex
  have hmod : (y * (w + 1) + x) % (w + 1) = x := by
    rw [Nat.add_comm, Nat.add_mul_mod_self_right]
    exact Nat.mod_eq_of_lt (by omega)
  have hdiv : (y * (w + 1) + x) / (w + 1) = y := by
    rw [Nat.add_comm, Nat.add_mul_div_right _ _ (by omega : 0 < w + 1)]
    rw [Nat.div_eq_of_lt (by omega)]
    omega
  rw [hmod, hdiv]

theorem nodeCoordQ_inRange {w h n : Nat} (hn : n < nNodes w h) :
    inDomainRange w h (nodeCoordQ w n) := by
  have hx : n % (w + 1) ≤ w := by
    have := Nat.mod_lt n (by omega : 0 < w + 1)
    omega
  have hy : n / (w + 1) ≤ h := by
    have : n / (w + 1) < h + 1 := by
      rw [Nat.div_lt_iff_lt_mul (by omega : 0 < w + 1)]
      rw [nNodes, Nat.mul_comm] at hn
      exact hn
    omega
  refine ⟨?_, ?_, ?_, ?_⟩
  · rw [nodeCoordQ_x]; positivity
  · rw [nodeCoordQ_x]; exact_mod_cast hx
  · rw [nodeCoordQ_y]; positivity
  · rw [nodeCoordQ_y]; exact_mod_cast hy

/-! ### Node status lemmas -/

theorem nodeStatusOf_cases (sd : Nat → ℚ) (n : Nat) :
    nodeStatusOf sd n = NodeStatusINSIDE ∨ nodeStatusOf sd n = NodeStatusOUTSIDE ∨
      nodeStatusOf sd n = NodeStatusBOUNDARY := by
  unfold nodeStatusOf
  split
  · right; right; rfl
  · split
    · right; left; rfl
    · left; rfl

theorem nodeStatusOf_inside_pos {sd : Nat → ℚ} {n : Nat}
    (h : nodeStatusOf sd n = NodeStatusINSIDE) : 0 < sd n := by
  unfold nodeStatusOf at h
  split at h
  · exact absurd h (by decide)
  · next h1 =>
      split at h
      · exact absurd h (by decide)
      · next h2 =>
          push_neg at h2
          rcases lt_or_eq_of_le h2 with h3 | h3
          · exact h3
          · exfalso; rw [← h3] at h1; norm_num at h1

theorem nodeStatusOf_outside_neg {sd : Nat → ℚ} {n : Nat}
    (h : nodeStatusOf sd n = NodeStatusOUTSIDE) : sd n < 0 := by
  unfold nodeStatusOf at h
  split at h
  · exact absurd h (by decide)
  · split at h
    · next h2 => exact h2
    · exact absurd h (by decide)

theorem nodeStatusOf_boundary_small {sd : Nat → ℚ} {n : Nat}
    (h : nodeStatusOf sd n = NodeStatusBOUNDARY) : |sd n| < 1/1000000 := by
  unfold nodeStatusOf at h
  split at h
  · next h1 => exact h1
  · split at h <;> exact absurd h (by decide)

theorem cut_pair {sd : Nat → ℚ} {a b : Nat}
    (h : (nodeStatusOf sd a ||| nodeStatusOf sd b) = NodeStatusCUT) :
    (nodeStatusOf sd a = NodeStatusINSIDE ∧ nodeStatusOf sd b = NodeStatusOUTSIDE) ∨
    (nodeStatusOf sd a = NodeStatusOUTSIDE ∧ nodeStatusOf sd b = NodeStatusINSIDE) := by
  rcases nodeStatusOf_cases sd a with h1 | h1 | h1 <;>
    rcases nodeStatusOf_cases sd b with h2 | h2 | h2 <;>
    rw [h1, h2] at h <;>
    first
      | exact Or.inl ⟨h1, h2⟩
      | exact Or.inr ⟨h1, h2⟩
      | exact absurd h (by decide)

theorem cut_d_bounds {sd : Nat → ℚ} {a b : Nat}
    (h : (nodeStatusOf sd a ||| nodeStatusOf sd b) = NodeStatusCUT) :
    0 < sd a / (sd a - sd b) ∧ sd a / (sd a - sd b) < 1 := by
  rcases cut_pair h with ⟨h1, h2⟩ | ⟨h1, h2⟩
  · have ha := nodeStatusOf_inside_pos h1
    have hb := nodeStatusOf_outside_neg h2
    constructor
    · exact div_pos ha (by linarith)
    · rw [div_lt_one (by linarith)]; linarith
  · have ha := nodeStatusOf_outside_neg h1
    have hb := nodeStatusOf_inside_pos h2
    constructor
    · exact div_pos_of_neg_of_neg ha (by linarith)
    · rw [div_lt_one_iff]
      exact Or.inr (Or.inr ⟨by linarith, by linarith⟩)

theorem isAddedCoord_zero (w node : Nat) (d : ℚ) :
    isAddedCoord w node 0 d = ⟨(nodeCoordQ w node).x + d, (nodeCoordQ w node).y⟩ := rfl

theorem isAddedCoord_one (w node : Nat) (d : ℚ) :
    isAddedCoord w node 1 d = ⟨(nodeCoordQ w node).x, (nodeCoordQ w node).y + d⟩ := rfl

theorem isAddedCoord_two (w node : Nat) (d : ℚ) :
    isAddedCoord w node 2 d = ⟨(nodeCoordQ w node).x - d, (nodeCoordQ w node).y⟩ := rfl

theorem isAddedCoord_three (w node : Nat) (d : ℚ) :
    isAddedCoord w node 3 d = ⟨(nodeCoordQ w node).x, (nodeCoordQ w node).y - d⟩ := rfl

/-- The interpolated boundary point of a cut edge lies inside the domain:
the interpolation parameter is strictly between 0 and 1 and the edge
spans two neighbouring grid nodes of a valid element. -/
theorem cutCoord_inRange {w h i j : Nat} {sd : Nat → ℚ}
    (hi : i < nElements w h) (hj : j < 4)
    (hcut : (nodeStatusOf sd (elemNodes w i j) |||
             nodeStatusOf sd (elemNodes w i ((j + 1) % 4))) = NodeStatusCUT) :
    inDomainRange w h (isAddedCoord w (elemNodes w i j) j
      (sd (elemNodes w i j) /
        (sd (elemNodes w i j) - sd (elemNodes w i ((j + 1) % 4))))) := by
  obtain ⟨hd0, hd1⟩ := cut_d_bounds hcut
  clear hcut
  have hw : 0 < w := by
    rcases Nat.eq_zero_or_pos w with hw | hw
    · subst hw; simp [nElements] at hi
    · exact hw
  have hex : i % w < w := Nat.mod_lt _ hw
  have hey : i / w < h := by
    rw [Nat.div_lt_iff_lt_mul hw]
    rw [nElements, Nat.mul_comm] at hi
    exact hi
  have hex1 : ((i % w : Nat) : ℚ) + 1 ≤ (w : ℚ) := by exact_mod_cast hex
  have hey1 : ((i / w : Nat) : ℚ) + 1 ≤ (h : ℚ) := by exact_mod_cast hey
  have hx0 : (0 : ℚ) ≤ ((i % w : Nat) : ℚ) := by positivity
  have hy0 : (0 : ℚ) ≤ ((i / w : Nat) : ℚ) := by positivity
  have hj4 : j = 0 ∨ j = 1 ∨ j = 2 ∨ j = 3 := by omega
  rcases hj4 with rfl | rfl | rfl | rfl
  · have e1 : elemNodes w i 0 = nodeIndex w (i % w) (i / w) := by simp [elemNodes]
    rw [e1] at hd0 hd1 ⊢
    rw [isAddedCoord_zero, nodeCoordQ_nodeIndex (le_of_lt hex)]
    refine ⟨?_, ?_, ?_, ?_⟩ <;> dsimp only <;> linarith
  · have e1 : elemNodes w i 1 = nodeIndex w (i % w + 1) (i / w) := by simp [elemNodes]
    rw [e1] at hd0 hd1 ⊢
    rw [isAddedCoord_one, nodeCoordQ_nodeIndex hex]
    refine ⟨?_, ?_, ?_, ?_⟩ <;> dsimp only <;> push_cast <;> linarith
  · have e1 : elemNodes w i 2 = nodeIndex w (i % w + 1) (i / w + 1) := by simp [elemNodes]
    rw [e1] at hd0 hd1 ⊢
    rw [isAddedCoord_two, nodeCoordQ_nodeIndex hex]
    refine ⟨?_, ?_, ?_, ?_⟩ <;> dsimp only <;> push_cast <;> linarith
  · have e1 : elemNodes w i 3 = nodeIndex w (i % w) (i / w + 1) := by simp [elemNodes]
    rw [e1] at hd0 hd1 ⊢
    rw [isAddedCoord_three, nodeCoordQ_nodeIndex (le_of_lt hex)]
    refine ⟨?_, ?_, ?_, ?_⟩ <;> dsimp only <;> push_cast <;> linarith

/-! ### Invariant preservation -/

theorem GoodPoint_initialisePoint [Field R] {w h : Nat} {ml : ℚ} {c : Coord}
    (hc : inDomainRange w h c) : GoodPoint R w h ml (initialisePoint w h ml c) := by
  constructor
  · rw [initialisePoint_coord]; exact hc
  · rw [initialisePoint_coord]

theorem createPoint_fst_nodeBP [Field R] (w h : Nat) (ml : ℚ) (st : BState R)
    (ns : List Nat) (c : Coord) (n : Nat) :
    (createPoint w h ml st ns c).1.nodeBP n =
      if n ∈ ns then st.nodeBP n ++ [st.points.length] else st.nodeBP n := rfl

theorem createPoint_inv [Field R] {w h : Nat} {ml : ℚ} {st : BState R} {ns : List Nat}
    {c : Coord} (hinv : InvD R w h ml st) (hc : inDomainRange w h c) :
    InvD R w h ml (createPoint w h ml st ns c).1 := by
  obtain ⟨hA, hB, hC, hD⟩ := hinv
  refine ⟨?_, ?_, ?_, ?_⟩
  · intro n idx hidx
    rw [createPoint_points_length]
    rw [createPoint_fst_nodeBP] at hidx
    split at hidx
    · rcases List.mem_append.1 hidx with h1 | h1
      · exact lt_trans (hA n idx h1) (Nat.lt_succ_self _)
      · simp at h1; omega
    · exact lt_trans (hA n idx hidx) (Nat.lt_succ_self _)
  · intro s hs
    rw [createPoint_fst_segments] at hs
    rw [createPoint_points_length]
    obtain ⟨h1, h2⟩ := hB s hs
    omega
  · rw [createPoint_fst_length, createPoint_fst_segments]
    exact hC
  · intro p hp
    rw [createPoint_fst_points] at hp
    rcases List.mem_append.1 hp with h1 | h1
    · exact hD p h1
    · simp at h1; subst h1; exact GoodPoint_initialisePoint hc

theorem addSegment_inv [Field R] {f : ℚ → R} {w h : Nat} {ml : ℚ} {st : BState R}
    {i s e : Nat} (hinv : InvD R w h ml st) (hs : s < st.points.length)
    (he : e < st.points.length) : InvD R w h ml (addSegment f st i s e) := by
  obtain ⟨hA, hB, hC, hD⟩ := hinv
  refine ⟨?_, ?_, ?_, ?_⟩
  · intro n idx hidx
    exact hA n idx hidx
  · intro sg hsg
    rw [addSegment_segments] at hsg
    rw [addSegment_points]
    rcases List.mem_append.1 hsg with h1 | h1
    · exact hB sg h1
    · simp only [List.mem_singleton] at h1
      subst h1
      exact ⟨hs, he⟩
  · rw [addSegment_length, addSegment_segments, List.map_append, List.sum_append, hC]
    simp
  · intro p hp
    rw [addSegment_points] at hp
    exact hD p hp

theorem lookupOrCreate_spec [Field R] (w h : Nat) (ml : ℚ) (st : BState R) (node : Nat) :
    (∃ idx, idx ∈ st.nodeBP node ∧ lookupOrCreate w h ml st node = (st, idx)) ∨
      lookupOrCreate w h ml st node =
        createPoint w h ml st [node] (nodeCoordQ w node) := by
  rcases hfind : isAdded st.points (st.nodeBP node) (nodeCoordQ w node) with _ | idx
  · right
    simp only [lookupOrCreate, hfind]
  · exact Or.inl ⟨idx, List.mem_of_find?_eq_some hfind,
      by simp only [lookupOrCreate, hfind]⟩

theorem lookupOrCreate_inv [Field R] {w h : Nat} {ml : ℚ} {s : BState R} {u : Nat}
    (hinv : InvD R w h ml s) (hn : u < nNodes w h) :
    InvD R w h ml (lookupOrCreate w h ml s u).1 ∧
    (lookupOrCreate w h ml s u).2 < (lookupOrCreate w h ml s u).1.points.length ∧
    s.points.length ≤ (lookupOrCreate w h ml s u).1.points.length ∧
    (lookupOrCreate w h ml s u).1.segments = s.segments ∧
    (lookupOrCreate w h ml s u).1.length = s.length ∧
    (lookupOrCreate w h ml s u).1.elemStatus = s.elemStatus := by
  rcases lookupOrCreate_spec w h ml s u with ⟨idx, hmem, heq⟩ | heq <;> rw [heq]
  · exact ⟨hinv, hinv.1 u idx hmem, le_refl _, rfl, rfl, rfl⟩
  · refine ⟨createPoint_inv hinv (nodeCoordQ_inRange hn), ?_, ?_,
      createPoint_fst_segments _ _ _ _ _ _, createPoint_fst_length _ _ _ _ _ _,
      createPoint_fst_elemStatus _ _ _ _ _ _⟩
    · rw [createPoint_points_length, createPoint_snd]
      omega
    · rw [createPoint_points_length]
      omega

theorem getD_lt_of_forall {l : List Nat} {k m : Nat} (hk : k < l.length)
    (hall : ∀ b ∈ l, b < m) : l.getD k 0 < m := by
  rw [List.getD_eq_getElem l 0 hk]
  exact hall _ (List.getElem_mem hk)

theorem processEdge_inv [Field R] {rt : ℚ → R} {w h : Nat} {ml : ℚ} {sd : Nat → ℚ}
    {isTarget : Bool} {isActive : Nat → Bool} {i : Nat} {acc : EdgeAcc R} {j : Nat}
    (hi : i < nElements w h) (hj : j < 4) (hacc : EdgeInvP R w h ml acc) :
    EdgeInvP R w h ml (processEdge rt w h ml sd isTarget isActive i acc j) ∧
      acc.st.points.length ≤
        (processEdge rt w h ml sd isTarget isActive i acc j).st.points.length := by
  obtain ⟨hinv, hcuts⟩ := hacc
  unfold processEdge
  dsimp only
  split
  · split
    · -- cut edge: dispatch on the deduplication lookup
      rename_i hcutE
      split
      · -- point already added
        rename_i index hfind
        refine ⟨⟨hinv, ?_⟩, le_refl _⟩
        intro b hb
        rcases List.mem_append.1 hb with h1 | h1
        · exact hcuts b h1
        · rw [List.mem_singleton] at h1
          subst h1
          exact hinv.1 _ _ (List.mem_of_find?_eq_some hfind)
      · -- new point
        have hc := cutCoord_inRange hi hj hcutE
        refine ⟨⟨createPoint_inv hinv hc, ?_⟩, ?_⟩
        · intro b hb
          rw [createPoint_points_length]
          rcases List.mem_append.1 hb with h1 | h1
          · exact lt_trans (hcuts b h1) (Nat.lt_succ_self _)
          · rw [List.mem_singleton] at h1
            subst h1
            rw [createPoint_snd]
            omega
        · rw [createPoint_points_length]
          omega
    · split
      · -- boundary-boundary edge
        obtain ⟨hinv1, hlt1, hle1, hsegs1, hlen1, hes1⟩ :=
          lookupOrCreate_inv (s := acc.st) (u := elemNodes w i j) hinv
            (elemNodes_lt j hi)
        obtain ⟨hinv2, hlt2, hle2, hsegs2, hlen2, hes2⟩ :=
          lookupOrCreate_inv (s := (lookupOrCreate w h ml acc.st (elemNodes w i j)).1)
            (u := elemNodes w i ((j + 1) % 4)) hinv1 (elemNodes_lt _ hi)
        refine ⟨⟨?_, ?_⟩, ?_⟩
        · exact addSegment_inv hinv2 (lt_of_lt_of_le hlt1 hle2) hlt2
        · intro b hb
          rw [addSegment_points]
          exact lt_of_lt_of_le (hcuts b hb) (le_trans hle1 hle2)
        · rw [addSegment_points]
          exact le_trans hle1 hle2
      · exact ⟨⟨hinv, hcuts⟩, le_refl _⟩
  · exact ⟨⟨hinv, hcuts⟩, le_refl _⟩

theorem edgePhase_inv [Field R] {rt : ℚ → R} {w h : Nat} {ml : ℚ} {sd : Nat → ℚ}
    {isTarget : Bool} {isActive : Nat → Bool} {st : BState R} {i : Nat}
    (hi : i < nElements w h) (hinv : InvD R w h ml st) :
    EdgeInvP R w h ml (edgePhase rt w h ml sd isTarget isActive st i) ∧
      st.points.length ≤ (edgePhase rt w h ml sd isTarget isActive st i).st.points.length := by
  unfold edgePhase
  apply foldl_inv (fun a => EdgeInvP R w h ml a ∧ st.points.length ≤ a.st.points.length)
  · exact ⟨⟨hinv, by intro b hb; simp at hb⟩, le_refl _⟩
  · intro a j hjmem hconj
    obtain ⟨ha, hle⟩ := hconj
    have hj : j < 4 := by
      simp only [List.mem_cons, List.not_mem_nil, or_false] at hjmem
      omega
    obtain ⟨h1, h2⟩ := processEdge_inv hi hj ha
    exact ⟨h1, le_trans hle h2⟩

theorem oneCutNode_inv [Field R] {rt : ℚ → R} {w h : Nat} {ml : ℚ} {sd : Nat → ℚ}
    {i bp0 : Nat} {st : BState R} {j : Nat}
    (hi : i < nElements w h) (hinv : InvD R w h ml st) (hbp : bp0 < st.points.length) :
    InvD R w h ml (oneCutNode rt w h ml sd i bp0 st j) ∧
      st.points.length ≤ (oneCutNode rt w h ml sd i bp0 st j).points.length := by
  unfold oneCutNode
  dsimp only
  split
  · split
    · obtain ⟨hinv1, hlt1, hle1, -, -, -⟩ :=
        lookupOrCreate_inv (s := st) (u := elemNodes w i j) hinv (elemNodes_lt j hi)
      constructor
      · exact addSegment_inv hinv1 (lt_of_lt_of_le hbp hle1) hlt1
      · rw [addSegment_points]
        exact hle1
    · exact ⟨hinv, le_refl _⟩
  · exact ⟨hinv, le_refl _⟩

theorem getD_lt_nNodes {w h : Nat} {l : List Nat} (hall : ∀ b ∈ l, b < nNodes w h)
    (k : Nat) : l.getD k 0 < nNodes w h := by
  by_cases hk : k < l.length
  · rw [List.getD_eq_getElem l 0 hk]
    exact hall _ (List.getElem_mem hk)
  · rw [List.getD_eq_default l 0 (by omega)]
    unfold nNodes
    positivity

theorem diagonal_node_lt {w h i : Nat} {sd : Nat → ℚ} (hi : i < nElements w h) (k : Nat) :
    (((List.range 4).filter
        (fun j => decide (nodeStatusOf sd (elemNodes w i j) &&& NodeStatusBOUNDARY ≠ 0))).map
      (fun j => elemNodes w i j)).getD k 0 < nNodes w h := by
  apply getD_lt_nNodes
  intro b hb
  rw [List.mem_map] at hb
  obtain ⟨j, -, hj⟩ := hb
  exact hj ▸ elemNodes_lt j hi

theorem diagonalCase_inv [Field R] {rt : ℚ → R} {w h : Nat} {ml : ℚ} {sd : Nat → ℚ}
    {i : Nat} {st : BState R} (hi : i < nElements w h) (hinv : InvD R w h ml st) :
    InvD R w h ml (diagonalCase rt w h ml sd i st) := by
  unfold diagonalCase
  dsimp only
  obtain ⟨hinv1, hlt1, hle1, -, -, -⟩ :=
    lookupOrCreate_inv (s := st) hinv (diagonal_node_lt hi 0)
  obtain ⟨hinv2, hlt2, hle2, -, -, -⟩ :=
    lookupOrCreate_inv hinv1 (diagonal_node_lt hi 1)
  exact addSegment_inv hinv2 (lt_of_lt_of_le hlt1 hle2) hlt2

theorem processElement_inv [Field R] {rt : ℚ → R} {w h : Nat} {ml : ℚ} {sd : Nat → ℚ}
    {isTarget : Bool} {isActive : Nat → Bool} {st : BState R} {i : Nat}
    (hi : i < nElements w h) (hinv : InvD R w h ml st) :
    InvD R w h ml (processElement rt w h ml sd isTarget isActive st i) := by
  unfold processElement
  dsimp only
  split
  · obtain ⟨⟨hinvA, hcuts⟩, hle⟩ := edgePhase_inv hi hinv
    split
    · -- two cuts
      next h2 =>
        exact addSegment_inv hinvA (getD_lt_of_forall (by omega) hcuts)
          (getD_lt_of_forall (by omega) hcuts)
    · split
      · -- one cut
        next h2 h1 =>
          have hb0 : (edgePhase rt w h ml sd isTarget isActive st i).cutPts.getD 0 0 <
              (edgePhase rt w h ml sd isTarget isActive st i).st.points.length :=
            getD_lt_of_forall (by omega) hcuts
          refine (foldl_inv (fun s => InvD R w h ml s ∧
              (edgePhase rt w h ml sd isTarget isActive st i).st.points.length ≤
                s.points.length) _ _ _ ⟨hinvA, le_refl _⟩ ?_).1
          intro s j hjmem hconj
          obtain ⟨hsI, hsle⟩ := hconj
          obtain ⟨hA, hB⟩ := oneCutNode_inv hi hsI (lt_of_lt_of_le hb0 hsle)
          exact ⟨hA, le_trans hsle hB⟩
      · split
        · -- four cuts
          next h2 h1 h4 =>
            have hb0 := getD_lt_of_forall (k := 0) (by omega) hcuts
            have hb1 := getD_lt_of_forall (k := 1) (by omega) hcuts
            have hb2 := getD_lt_of_forall (k := 2) (by omega) hcuts
            have hb3 := getD_lt_of_forall (k := 3) (by omega) hcuts
            split
            · have s1 := addSegment_inv (f := rt) (i := i) hinvA hb0 hb1
              have s2 := addSegment_inv (f := rt) (i := i) s1
                (by rw [addSegment_points]; exact hb2)
                (by rw [addSegment_points]; exact hb3)
              exact s2
            · have s1 := addSegment_inv (f := rt) (i := i) hinvA hb0 hb3
              have s2 := addSegment_inv (f := rt) (i := i) s1
                (by rw [addSegment_points]; exact hb1)
                (by rw [addSegment_points]; exact hb2)
              exact s2
        · split
          · -- zero cuts, diagonal case
            exact diagonalCase_inv hi hinvA
          · exact hinvA
  · exact hinv

theorem discretiseLoop_inv [Field R] (rt : ℚ → R) (w h : Nat) (ml : ℚ) (sd : Nat → ℚ)
    (isTarget : Bool) (isActive : Nat → Bool) :
    InvD R w h ml (discretiseLoop rt w h ml sd isTarget isActive) := by
  unfold discretiseLoop
  apply foldl_inv (InvD R w h ml)
  · refine ⟨?_, ?_, ?_, ?_⟩
    · intro n idx hidx
      simp at hidx
    · intro s hs
      simp at hs
    · simp
    · intro p hp
      simp at hp
  · intro s a ha hs
    exact processElement_inv (List.mem_range.1 ha) hs

/-! ### Point length accounting -/

theorem computePointLengths_segments [Field R] (st : BState R) :
    (computePointLengths st).segments = st.segments := rfl

theorem computePointLengths_length [Field R] (st : BState R) :
    (computePointLengths st).length = st.length := rfl

theorem computePointLengths_elemStatus [Field R] (st : BState R) :
    (computePointLengths st).elemStatus = st.elemStatus := rfl

theorem pointAddSeg_length_list [Field R] (ps : List (BoundaryPoint R)) (idx : Nat)
    (x : R) (a b : Nat) : (pointAddSeg ps idx x a b).length = ps.length := by
  unfold pointAddSeg
  exact List.length_set ps idx _

theorem pointAddSeg_cons_succ [Field R] (p : BoundaryPoint R)
    (t : List (BoundaryPoint R)) (n : Nat) (x : R) (a b : Nat) :
    pointAddSeg (p :: t) (n + 1) x a b = p :: pointAddSeg t n x a b := rfl

theorem pointAddSeg_cons_zero [Field R] (p : BoundaryPoint R)
    (t : List (BoundaryPoint R)) (x : R) (a b : Nat) :
    pointAddSeg (p :: t) 0 x a b =
      { p with length := p.length + x, segments := p.segments ++ [a],
               neighbours := p.neighbours ++ [b] } :: t := rfl

theorem lengthSum_cons [Field R] (p : BoundaryPoint R) (t : List (BoundaryPoint R)) :
    lengthSum (p :: t) = p.length + lengthSum t := by
  unfold lengthSum
  simp

theorem lengthSum_pointAddSeg [Field R] {ps : List (BoundaryPoint R)} {idx : Nat}
    {x : R} {a b : Nat} (hidx : idx < ps.length) :
    lengthSum (pointAddSeg ps idx x a b) = lengthSum ps + x := by
  induction ps generalizing idx with
  | nil => simp at hidx
  | cons p t ih =>
      cases idx with
      | zero =>
          rw [pointAddSeg_cons_zero, lengthSum_cons, lengthSum_cons]
          dsimp only
          ring
      | succ n =>
          rw [pointAddSeg_cons_succ, lengthSum_cons, lengthSum_cons]
          have hn : n < t.length := by simp at hidx; omega
          rw [ih hn]
          ring

theorem lengthSum_cplFold [Field R] [CharZero R] (xs : List (Nat × BoundarySegment R))
    (ps : List (BoundaryPoint R))
    (hb : ∀ x ∈ xs, x.2.start < ps.length ∧ x.2.stop < ps.length) :
    lengthSum (xs.foldl (fun ps x =>
      let i := x.1
      let s := x.2
      let ps1 := pointAddSeg ps s.start ((1/2 : R) * s.length) i s.stop
      pointAddSeg ps1 s.stop ((1/2 : R) * s.length) i s.start) ps) =
    lengthSum ps + (xs.map (fun x => x.2.length)).sum := by
  induction xs generalizing ps with
  | nil => simp
  | cons x t ih =>
      obtain ⟨hs, he⟩ := hb x (by simp)
      rw [List.foldl_cons]
      dsimp only
      rw [ih _ ?bounds]
      case bounds =>
        intro y hy
        rw [pointAddSeg_length_list, pointAddSeg_length_list]
        exact hb y (by simp [hy])
      rw [lengthSum_pointAddSeg (by rw [pointAddSeg_length_list]; exact he)]
      rw [lengthSum_pointAddSeg hs]
      simp only [List.map_cons, List.sum_cons]
      field_simp
      ring

theorem computePointLengths_lengthSum [Field R] [CharZero R] (st : BState R)
    (hb : ∀ s ∈ st.segments, s.start < st.points.length ∧ s.stop < st.points.length) :
    lengthSum (computePointLengths st).points =
      lengthSum st.points + (st.segments.map (fun s => s.length)).sum := by
  show lengthSum (st.segments.enum.foldl (fun ps x =>
      let i := x.1
      let s := x.2
      let ps1 := pointAddSeg ps s.start ((1/2 : R) * s.length) i s.stop
      pointAddSeg ps1 s.stop ((1/2 : R) * s.length) i s.start) st.points) = _
  rw [lengthSum_cplFold _ _ (fun x hx => hb x.2 (snd_mem_of_mem_enum hx))]
  congr 1
  have h1 : st.segments.enum.map (fun x => x.2.length) =
      (st.segments.enum.map Prod.snd).map (fun s => s.length) := by
    rw [List.map_map]
    rfl
  rw [h1, List.enum_map_snd]

/-- Claim C1: after `discretise` completes, the reported total boundary
length equals the sum of the lengths of all produced boundary segments,
and the sum over all boundary points of their integral lengths equals
that same total (each segment splits its length in half between its two
endpoints, via `computePointLengths`). -/
theorem C1_total_length_sums (w h : Nat) (ml : ℚ) (sdC sdT : Nat → ℚ)
    (isTarget : Bool) (isActive : Nat → Bool) :
    (discretise (fun q => Real.sqrt (q : ℝ)) w h ml sdC sdT isTarget isActive).length =
      ((discretise (fun q => Real.sqrt (q : ℝ)) w h ml sdC sdT isTarget
          isActive).segments.map (fun s => s.length)).sum ∧
    ((discretise (fun q => Real.sqrt (q : ℝ)) w h ml sdC sdT isTarget
        isActive).points.map (fun p => p.length)).sum =
      (discretise (fun q => Real.sqrt (q : ℝ)) w h ml sdC sdT isTarget isActive).length := by
  unfold discretise
  dsimp only
  obtain ⟨hA, hB, hC, hD⟩ := discretiseLoop_inv (fun q => Real.sqrt (q : ℝ)) w h ml
    (if isTarget then sdT else sdC) isTarget isActive
  constructor
  · rw [computePointLengths_length, computePointLengths_segments, hC]
  · have hz : lengthSum (discretiseLoop (fun q => Real.sqrt (q : ℝ)) w h ml
        (if isTarget then sdT else sdC) isTarget isActive).points = 0 := by
      apply List.sum_eq_zero
      intro x hx
      rw [List.mem_map] at hx
      obtain ⟨p, hp, hxe⟩ := hx
      have hgp := (hD p hp).2
      rw [← hxe]
      have hpl : p.length = (initialisePoint w h ml p.coord).length := by rw [← hgp]
      rw [hpl, initialisePoint_length]
    have htot := computePointLengths_lengthSum
      (discretiseLoop (fun q => Real.sqrt (q : ℝ)) w h ml
        (if isTarget then sdT else sdC) isTarget isActive) hB
    rw [computePointLengths_length]
    show lengthSum (computePointLengths (discretiseLoop (fun q => Real.sqrt (q : ℝ)) w h ml
      (if isTarget then sdT else sdC) isTarget isActive)).points = _
    rw [htot, hz, hC]
    ring

/-- Claim C5 (code bug): on the 1 × 1 mesh with `sdDegenerate` the two
interpolated cut points coincide within the deduplication tolerance and
are merged, so `discretise` emits a single boundary segment whose start
and end indices are equal and whose length is zero — violating the
invariant start ≠ end, length > 0. -/
theorem C5_degenerate_segment :
    (discretise (fun q => Real.sqrt (q : ℝ)) 1 1 (1/2) (fun _ => 0) sdDegenerate true
        (fun _ => false)).segments.length = 1 ∧
    ((discretise (fun q => Real.sqrt (q : ℝ)) 1 1 (1/2) (fun _ => 0) sdDegenerate true
        (fun _ => false)).segments.getD 0 default).start =
      ((discretise (fun q => Real.sqrt (q : ℝ)) 1 1 (1/2) (fun _ => 0) sdDegenerate true
        (fun _ => false)).segments.getD 0 default).stop ∧
    ((discretise (fun q => Real.sqrt (q : ℝ)) 1 1 (1/2) (fun _ => 0) sdDegenerate true
        (fun _ => false)).segments.getD 0 default).length = 0 := by
  refine ⟨of_decide_eq_true (by with_unfolding_all rfl),
    of_decide_eq_true (by with_unfolding_all rfl), ?_⟩
  have h : ((discretise (fun q => Real.sqrt (q : ℝ)) 1 1 (1/2) (fun _ => 0) sdDegenerate
      true (fun _ => false)).segments.getD 0 default).length =
      Real.sqrt ((0 : ℚ) : ℝ) := by
    with_unfolding_all rfl
  rw [h]
  simp

/-- Claim C7 (code bug): on the 2 × 2 mesh (9 nodes) with `sdFourBlobs`,
`discretise` discovers 8 boundary points while the pre-allocated storage
is `allocSize 9 = 4`; the code never grows the vectors before writing, so
the writes of points 4–7 are out of bounds in the C++ source. -/
theorem C7_capacity_exceeded :
    allocSize (nNodes 2 2) = 4 ∧
    (discretise (fun q => Real.sqrt (q : ℝ)) 2 2 (1/2) (fun _ => 0) sdFourBlobs true
        (fun _ => false)).points.length = 8 ∧
    4 < (discretise (fun q => Real.sqrt (q : ℝ)) 2 2 (1/2) (fun _ => 0) sdFourBlobs true
        (fun _ => false)).points.length :=
  ⟨by decide, of_decide_eq_true (by with_unfolding_all rfl),
    of_decide_eq_true (by with_unfolding_all rfl)⟩

/-! ### Stability of point attributes under `computePointLengths` -/

theorem pointAddSeg_mem [Field R] {ps : List (BoundaryPoint R)} {idx : Nat} {x : R}
    {a b : Nat} {p : BoundaryPoint R} (hp : p ∈ pointAddSeg ps idx x a b) :
    ∃ q ∈ ps, p.coord = q.coord ∧ p.negativeLimit = q.negativeLimit ∧
      p.positiveLimit = q.positiveLimit ∧ p.isDomain = q.isDomain ∧
      p.sensitivities = q.sensitivities := by
  unfold pointAddSeg at hp
  by_cases hidx : idx < ps.length
  · rcases List.mem_or_eq_of_mem_set hp with h | h
    · exact ⟨p, h, rfl, rfl, rfl, rfl, rfl⟩
    · subst h
      refine ⟨ps.getD idx default, ?_, rfl, rfl, rfl, rfl, rfl⟩
      rw [List.getD_eq_getElem _ _ hidx]
      exact List.getElem_mem _
  · rw [List.set_eq_of_length_le (by omega)] at hp
    exact ⟨p, hp, rfl, rfl, rfl, rfl, rfl⟩

theorem cplFold_mem [Field R] (xs : List (Nat × BoundarySegment R))
    (ps : List (BoundaryPoint R)) {p : BoundaryPoint R}
    (hp : p ∈ xs.foldl (fun ps x =>
      let i := x.1
      let s := x.2
      let ps1 := pointAddSeg ps s.start ((1/2 : R) * s.length) i s.stop
      pointAddSeg ps1 s.stop ((1/2 : R) * s.length) i s.start) ps) :
    ∃ q ∈ ps, p.coord = q.coord ∧ p.negativeLimit = q.negativeLimit ∧
      p.positiveLimit = q.positiveLimit ∧ p.isDomain = q.isDomain ∧
      p.sensitivities = q.sensitivities := by
  induction xs generalizing ps with
  | nil => exact ⟨p, hp, rfl, rfl, rfl, rfl, rfl⟩
  | cons x t ih =>
      rw [List.foldl_cons] at hp
      obtain ⟨q, hq, e1, e2, e3, e4, e5⟩ := ih _ hp
      dsimp only at hq
      obtain ⟨r, hr, f1, f2, f3, f4, f5⟩ := pointAddSeg_mem hq
      obtain ⟨s, hs, g1, g2, g3, g4, g5⟩ := pointAddSeg_mem hr
      exact ⟨s, hs, by rw [e1, f1, g1], by rw [e2, f2, g2], by rw [e3, f3, g3],
        by rw [e4, f4, g4], by rw [e5, f5, g5]⟩

theorem discretise_points_stable [Field R] (rt : ℚ → R) (w h : Nat) (ml : ℚ)
    (sdC sdT : Nat → ℚ) (isTarget : Bool) (isActive : Nat → Bool) {p : BoundaryPoint R}
    (hp : p ∈ (discretise rt w h ml sdC sdT isTarget isActive).points) :
    ∃ q, GoodPoint R w h ml q ∧ p.coord = q.coord ∧
      p.negativeLimit = q.negativeLimit ∧ p.positiveLimit = q.positiveLimit ∧
      p.isDomain = q.isDomain ∧ p.sensitivities = q.sensitivities := by
  unfold discretise at hp
  dsimp only at hp
  obtain ⟨q, hq, e1, e2, e3, e4, e5⟩ := cplFold_mem _ _ hp
  exact ⟨q, (discretiseLoop_inv rt w h ml _ isTarget isActive).2.2.2 q hq,
    e1, e2, e3, e4, e5⟩

/-! ### Movement limits and the domain flag -/

theorem minBoundaryDist_nonneg {w h : Nat} {c : Coord} (hc : inDomainRange w h c) :
    0 ≤ minBoundaryDist w h c := by
  obtain ⟨hx0, hxw, hy0, hyh⟩ := hc
  unfold minBoundaryDist
  simp only [le_min_iff]
  exact ⟨⟨hx0, by linarith⟩, hy0, by linarith⟩

theorem initialisePoint_spec [Field R] {w h : Nat} {m : ℚ} {c : Coord}
    (hml : 0 ≤ m) (hc : inDomainRange w h c) :
    (initialisePoint (R := R) w h m c).negativeLimit ≤ 0 ∧
    0 ≤ (initialisePoint (R := R) w h m c).positiveLimit ∧
    ((initialisePoint (R := R) w h m c).isDomain = true ↔
      minBoundaryDist w h c < 1/1000000) := by
  have hmb := minBoundaryDist_nonneg hc
  unfold minBoundaryDist at hmb
  unfold initialisePoint
  dsimp only
  split
  · next hlt =>
      refine ⟨?_, ?_, ?_⟩ <;> dsimp only
      · linarith
      · exact hml
      · rw [decide_eq_true_iff]
        unfold minBoundaryDist
        exact Iff.rfl
  · next hge =>
      push_neg at hge
      refine ⟨?_, ?_, ?_⟩ <;> dsimp only
      · linarith
      · exact hml
      · constructor
        · intro hf
          exact absurd hf (by decide)
        · intro hsmall
          exfalso
          unfold minBoundaryDist at hsmall
          linarith

/-- Claim C6: every boundary point created during `discretise` (for a
nonnegative move limit) has `negativeLimit ≤ 0 ≤ positiveLimit`, and its
domain flag is set exactly when the point lies within the `1e-6`
tolerance of the domain boundary. -/
theorem C6_limits_and_domain_flag {R : Type} [Field R] (rt : ℚ → R) (w h : Nat)
    (ml : ℚ) (sdC sdT : Nat → ℚ) (isTarget : Bool) (isActive : Nat → Bool)
    (hml : 0 ≤ ml) (i : Nat)
    (hi : i < (discretise rt w h ml sdC sdT isTarget isActive).points.length) :
    ((discretise rt w h ml sdC sdT isTarget isActive).points.getD i
        default).negativeLimit ≤ 0 ∧
    0 ≤ ((discretise rt w h ml sdC sdT isTarget isActive).points.getD i
        default).positiveLimit ∧
    (((discretise rt w h ml sdC sdT isTarget isActive).points.getD i
        default).isDomain = true ↔
      minBoundaryDist w h ((discretise rt w h ml sdC sdT isTarget
        isActive).points.getD i default).coord < 1/1000000) := by
  have hp : (discretise rt w h ml sdC sdT isTarget isActive).points.getD i default ∈
      (discretise rt w h ml sdC sdT isTarget isActive).points := by
    rw [List.getD_eq_getElem _ _ hi]
    exact List.getElem_mem _
  obtain ⟨q, ⟨hqr, hqe⟩, e1, e2, e3, e4, -⟩ :=
    discretise_points_stable rt w h ml sdC sdT isTarget isActive hp
  have hspec := initialisePoint_spec (R := R) (w := w) (h := h) (m := ml)
    (c := q.coord) hml hqr
  rw [← hqe] at hspec
  rw [e2, e3, e4, e1]
  exact hspec

/-- Witness for C6: the degenerate 1 × 1 run with move limit `1/2` has a
first boundary point (on the bottom domain edge), and the conclusion of
`C6_limits_and_domain_flag` holds for it. -/
theorem C6_witness :
    (0 ≤ (1/2 : ℚ) ∧
      0 < (discretise (fun q => (q : ℚ)) 1 1 (1/2) (fun _ => 0) sdDegenerate true
        (fun _ => false)).points.length) ∧
    (((discretise (fun q => (q : ℚ)) 1 1 (1/2) (fun _ => 0) sdDegenerate true
        (fun _ => false)).points.getD 0 default).negativeLimit ≤ 0 ∧
      0 ≤ ((discretise (fun q => (q : ℚ)) 1 1 (1/2) (fun _ => 0) sdDegenerate true
        (fun _ => false)).points.getD 0 default).positiveLimit ∧
      (((discretise (fun q => (q : ℚ)) 1 1 (1/2) (fun _ => 0) sdDegenerate true
        (fun _ => false)).points.getD 0 default).isDomain = true ↔
        minBoundaryDist 1 1 ((discretise (fun q => (q : ℚ)) 1 1 (1/2) (fun _ => 0)
          sdDegenerate true (fun _ => false)).points.getD 0 default).coord <
          1/1000000)) :=
  ⟨⟨by norm_num, of_decide_eq_true (by with_unfolding_all rfl)⟩,
    C6_limits_and_domain_flag (fun q => (q : ℚ)) 1 1 (1/2) (fun _ => 0) sdDegenerate
      true (fun _ => false) (by norm_num) 0
      (of_decide_eq_true (by with_unfolding_all rfl))⟩

/-- Claim C9 counterexample: the claim asserts a sensitivities list of
size exactly `1 + nConstraints`; the spec supports the zero-constraint
case (`nConstraints = 0`), for which the claimed size is 1, but the point
created by `discretise` carries a list of size 2 (`initialisePoint`
always resizes to two entries). -/
theorem C9_counterexample :
    ((discretise (fun q => Real.sqrt (q : ℝ)) 1 1 (1/2) (fun _ => 0) sdDegenerate true
        (fun _ => false)).points.getD 0 default).sensitivities.length ≠ 1 + 0 := by
  have h : ((discretise (fun q => Real.sqrt (q : ℝ)) 1 1 (1/2) (fun _ => 0) sdDegenerate
      true (fun _ => false)).points.getD 0 default).sensitivities.length = 2 :=
    of_decide_eq_true (by with_unfolding_all rfl)
  omega

/-- Claim C9 (amended): every boundary point created by `discretise`
carries a sensitivities list of size exactly 2 (one objective slot plus a
single assumed constraint slot), independently of the number of
constraints. -/
theorem C9_sensitivities_size_two {R : Type} [Field R] (rt : ℚ → R) (w h : Nat)
    (ml : ℚ) (sdC sdT : Nat → ℚ) (isTarget : Bool) (isActive : Nat → Bool) (i : Nat)
    (hi : i < (discretise rt w h ml sdC sdT isTarget isActive).points.length) :
    ((discretise rt w h ml sdC sdT isTarget isActive).points.getD i
        default).sensitivities.length = 2 := by
  have hp : (discretise rt w h ml sdC sdT isTarget isActive).points.getD i default ∈
      (discretise rt w h ml sdC sdT isTarget isActive).points := by
    rw [List.getD_eq_getElem _ _ hi]
    exact List.getElem_mem _
  obtain ⟨q, ⟨-, hqe⟩, -, -, -, -, e5⟩ :=
    discretise_points_stable rt w h ml sdC sdT isTarget isActive hp
  rw [e5]
  have : q.sensitivities = (initialisePoint (R := R) w h ml q.coord).sensitivities := by
    rw [← hqe]
  rw [this, initialisePoint_sensitivities]
  rfl

/-- Witness for the amended C9: the degenerate 1 × 1 run has a first
point, and its sensitivities list has size 2. -/
theorem C9_witness :
    0 < (discretise (fun q => (q : ℚ)) 1 1 (1/2) (fun _ => 0) sdDegenerate true
        (fun _ => false)).points.length ∧
    ((discretise (fun q => (q : ℚ)) 1 1 (1/2) (fun _ => 0) sdDegenerate true
        (fun _ => false)).points.getD 0 default).sensitivities.length = 2 :=
  ⟨of_decide_eq_true (by with_unfolding_all rfl),
    C9_sensitivities_size_two (fun q => (q : ℚ)) 1 1 (1/2) (fun _ => 0) sdDegenerate
      true (fun _ => false) 0 (of_decide_eq_true (by with_unfolding_all rfl))⟩

/-! ### Area fractions -/

theorem foldl_add_eq_map_sum (l : List Nat) (f : Nat → ℚ) (a0 : ℚ) :
    l.foldl (fun a i => a + f i) a0 = a0 + (l.map f).sum := by
  induction l generalizing a0 with
  | nil => simp
  | cons x t ih =>
      rw [List.foldl_cons, ih, List.map_cons, List.sum_cons]
      ring

/-- Claim C2: `computeAreaFractions` assigns exactly 1 to inside
elements, exactly 0 to outside elements, the polygon-clipping cut area to
every other element (in particular `1 - polygonArea` of the outside
polygon for a centre-outside element), and returns the sum of the
per-element areas. -/
theorem C2_area_fractions {R : Type} [Field R] (w h : Nat) (ns : Nat → Nat)
    (st : BState R) (i : Nat) :
    (st.elemStatus i &&& ElementStatusINSIDE ≠ 0 → elementArea w ns st i = 1) ∧
    (st.elemStatus i &&& ElementStatusINSIDE = 0 →
      st.elemStatus i &&& ElementStatusOUTSIDE ≠ 0 → elementArea w ns st i = 0) ∧
    (st.elemStatus i &&& ElementStatusINSIDE = 0 →
      st.elemStatus i &&& ElementStatusOUTSIDE = 0 →
      elementArea w ns st i = cutArea w ns st i) ∧
    (st.elemStatus i = ElementStatusCENTREOUTSIDE →
      elementArea w ns st i =
        1 - polygonArea (cutVertices w ns st i) (elemCentre w i)) ∧
    computeAreaFractions w h ns st =
      ((List.range (nElements w h)).map (elementArea w ns st)).sum := by
  refine ⟨?_, ?_, ?_, ?_, ?_⟩
  · intro h1
    unfold elementArea
    rw [if_pos h1]
  · intro h1 h2
    unfold elementArea
    rw [if_neg (by simp [h1]), if_pos h2]
  · intro h1 h2
    unfold elementArea
    rw [if_neg (by simp [h1]), if_neg (by simp [h2])]
  · intro hco
    unfold elementArea
    rw [hco]
    rw [if_neg (by decide), if_neg (by decide)]
    unfold cutArea
    rw [hco]
    dsimp only
    rw [if_pos (by decide)]
  · unfold computeAreaFractions
    rw [foldl_add_eq_map_sum]
    ring

/-- Witness for C2: on the all-zero field of the 1 × 1 mesh the single
element is classified inside and receives area 1; on the `sdCentreOut`
field the 4-cut element resolves to centre-outside and its area is
`1 - polygonArea` of the collected outside polygon; the total is the
per-element sum. -/
theorem C2_witness :
    elementArea 1 (nodeStatusOf (fun _ => 0))
      (discretise (fun q => (q : ℚ)) 1 1 (1/2) (fun _ => 0) (fun _ => 0) true
        (fun _ => false)) 0 = 1 ∧
    elementArea 1 (nodeStatusOf sdCentreOut)
      (discretise (fun q => (q : ℚ)) 1 1 (1/2) (fun _ => 0) sdCentreOut true
        (fun _ => false)) 0 =
      1 - polygonArea (cutVertices 1 (nodeStatusOf sdCentreOut)
          (discretise (fun q => (q : ℚ)) 1 1 (1/2) (fun _ => 0) sdCentreOut true
            (fun _ => false)) 0)
        (elemCentre 1 0) ∧
    computeAreaFractions 1 1 (nodeStatusOf sdCentreOut)
      (discretise (fun q => (q : ℚ)) 1 1 (1/2) (fun _ => 0) sdCentreOut true
        (fun _ => false)) =
      ((List.range (nElements 1 1)).map (elementArea 1 (nodeStatusOf sdCentreOut)
        (discretise (fun q => (q : ℚ)) 1 1 (1/2) (fun _ => 0) sdCentreOut true
          (fun _ => false)))).sum :=
  ⟨(C2_area_fractions 1 1 (nodeStatusOf (fun _ => 0))
      (discretise (fun q => (q : ℚ)) 1 1 (1/2) (fun _ => 0) (fun _ => 0) true
        (fun _ => false)) 0).1
      (of_decide_eq_true (by with_unfolding_all rfl)),
    (C2_area_fractions 1 1 (nodeStatusOf sdCentreOut)
      (discretise (fun q => (q : ℚ)) 1 1 (1/2) (fun _ => 0) sdCentreOut true
        (fun _ => false)) 0).2.2.2.1
      (of_decide_eq_true (by with_unfolding_all rfl)),
    (C2_area_fractions 1 1 (nodeStatusOf sdCentreOut)
      (discretise (fun q => (q : ℚ)) 1 1 (1/2) (fun _ => 0) sdCentreOut true
        (fun _ => false)) 0).2.2.2.2⟩

/-! ### Element status preservation -/

theorem lookupOrCreate_elemStatus [Field R] (w h : Nat) (ml : ℚ) (st : BState R)
    (node : Nat) : (lookupOrCreate w h ml st node).1.elemStatus = st.elemStatus := by
  rcases lookupOrCreate_spec w h ml st node with ⟨idx, -, heq⟩ | heq <;> rw [heq]
  exact createPoint_fst_elemStatus _ _ _ _ _ _

theorem processEdge_elemStatus [Field R] (rt : ℚ → R) (w h : Nat) (ml : ℚ)
    (sd : Nat → ℚ) (isTarget : Bool) (isActive : Nat → Bool) (i : Nat)
    (acc : EdgeAcc R) (j : Nat) :
    (processEdge rt w h ml sd isTarget isActive i acc j).st.elemStatus =
      acc.st.elemStatus := by
  unfold processEdge
  dsimp only
  split
  · split
    · split
      · rfl
      · exact createPoint_fst_elemStatus _ _ _ _ _ _
    · split
      · rw [addSegment_elemStatus, lookupOrCreate_elemStatus, lookupOrCreate_elemStatus]
      · rfl
  · rfl

theorem edgePhase_elemStatus [Field R] (rt : ℚ → R) (w h : Nat) (ml : ℚ)
    (sd : Nat → ℚ) (isTarget : Bool) (isActive : Nat → Bool) (st : BState R)
    (i : Nat) :
    (edgePhase rt w h ml sd isTarget isActive st i).st.elemStatus = st.elemStatus := by
  unfold edgePhase
  apply foldl_inv (fun a : EdgeAcc R => a.st.elemStatus = st.elemStatus)
  · rfl
  · intro a j hj ha
    dsimp only
    rw [processEdge_elemStatus]
    exact ha

theorem oneCutNode_elemStatus [Field R] (rt : ℚ → R) (w h : Nat) (ml : ℚ)
    (sd : Nat → ℚ) (i bp0 : Nat) (st : BState R) (j : Nat) :
    (oneCutNode rt w h ml sd i bp0 st j).elemStatus = st.elemStatus := by
  unfold oneCutNode
  dsimp only
  split
  · split
    · rw [addSegment_elemStatus, lookupOrCreate_elemStatus]
    · rfl
  · rfl

theorem diagonalCase_elemStatus [Field R] (rt : ℚ → R) (w h : Nat) (ml : ℚ)
    (sd : Nat → ℚ) (i : Nat) (st : BState R) :
    (diagonalCase rt w h ml sd i st).elemStatus = st.elemStatus := by
  unfold diagonalCase
  dsimp only
  rw [addSegment_elemStatus, lookupOrCreate_elemStatus, lookupOrCreate_elemStatus]

theorem processElement_elemStatus_other [Field R] (rt : ℚ → R) (w h : Nat) (ml : ℚ)
    (sd : Nat → ℚ) (isTarget : Bool) (isActive : Nat → Bool) (st : BState R)
    (i e : Nat) (hne : e ≠ i) :
    (processElement rt w h ml sd isTarget isActive st i).elemStatus e =
      st.elemStatus e := by
  unfold processElement
  dsimp only
  split
  · split
    · rw [addSegment_elemStatus, edgePhase_elemStatus]
    · split
      · refine foldl_inv (fun s : BState R => s.elemStatus e = st.elemStatus e) _ _ _ ?_ ?_
        · dsimp only
          rw [edgePhase_elemStatus]
        · intro s j hj hs
          dsimp only at hs ⊢
          rw [oneCutNode_elemStatus]
          exact hs
      · split
        · dsimp only
          rw [if_neg hne]
          split
          · rw [addSegment_elemStatus, addSegment_elemStatus, edgePhase_elemStatus]
          · rw [addSegment_elemStatus, addSegment_elemStatus, edgePhase_elemStatus]
        · split
          · rw [diagonalCase_elemStatus, edgePhase_elemStatus]
          · rw [edgePhase_elemStatus]
  · rfl

theorem edgePhase_boundary [Field R] (rt : ℚ → R) (w h : Nat) (ml : ℚ)
    (sd : Nat → ℚ) (isTarget : Bool) (isActive : Nat → Bool) (st : BState R)
    (e : Nat) (hb : ∀ j, j < 4 → nodeStatusOf sd (elemNodes w e j) = NodeStatusBOUNDARY) :
    (edgePhase rt w h ml sd isTarget isActive st e).cutPts = [] := by
  unfold edgePhase
  refine foldl_inv (fun a : EdgeAcc R => a.cutPts = []) _ _ _ rfl ?_
  intro a j hjmem ha
  dsimp only at ha ⊢
  have hj : j < 4 := by
    simp only [List.mem_cons, List.not_mem_nil, or_false] at hjmem
    omega
  have hjn : (j + 1) % 4 < 4 := by omega
  unfold processEdge
  dsimp only
  split
  · split
    · next hcond =>
        rw [hb j hj, hb ((j + 1) % 4) hjn] at hcond
        exact absurd hcond (by decide)
    · split
      · exact ha
      · exact ha
  · exact ha

theorem processElement_elemStatus_boundary [Field R] (rt : ℚ → R) (w h : Nat)
    (ml : ℚ) (sd : Nat → ℚ) (isTarget : Bool) (isActive : Nat → Bool) (st : BState R)
    (e : Nat) (hb : ∀ j, j < 4 → nodeStatusOf sd (elemNodes w e j) = NodeStatusBOUNDARY)
    (hstat : st.elemStatus e = ElementStatusINSIDE) :
    (processElement rt w h ml sd isTarget isActive st e).elemStatus e =
      ElementStatusINSIDE := by
  have hc := edgePhase_boundary rt w h ml sd isTarget isActive st e hb
  unfold processElement
  dsimp only
  split
  · rw [if_neg (by rw [hc]; decide), if_neg (by rw [hc]; decide),
      if_neg (by rw [hc]; decide), if_neg ?nodiag]
    case nodiag =>
      intro hand
      apply hand.2
      rw [edgePhase_elemStatus]
      exact hstat
    rw [edgePhase_elemStatus]
    exact hstat
  · exact hstat

/-- Claim C10: an element all four of whose corner signed distances are
within `1e-6` of zero has all corners classified boundary, is classified
inside by `computeMeshStatus` (the no-outside-corner branch takes
precedence), keeps that status through `discretise`, and is assigned area
fraction exactly 1 by `computeAreaFractions`. -/
theorem C10_all_boundary_corners (w h : Nat) (ml : ℚ) (sd : Nat → ℚ)
    (isTarget : Bool) (isActive : Nat → Bool) (e : Nat) (_he : e < nElements w h)
    (hb : ∀ j, j < 4 → |sd (elemNodes w e j)| < 1/1000000) :
    elemStatusInit w sd e = ElementStatusINSIDE ∧
    (discretise (fun q => Real.sqrt (q : ℝ)) w h ml sd sd isTarget
        isActive).elemStatus e = ElementStatusINSIDE ∧
    elementArea w (nodeStatusOf sd)
      (discretise (fun q => Real.sqrt (q : ℝ)) w h ml sd sd isTarget isActive) e = 1 := by
  have hbs : ∀ j, j < 4 → nodeStatusOf sd (elemNodes w e j) = NodeStatusBOUNDARY := by
    intro j hj
    unfold nodeStatusOf
    rw [if_pos (hb j hj)]
  have hinit : elemStatusInit w sd e = ElementStatusINSIDE := by
    unfold elemStatusInit
    rw [if_pos ?tz]
    case tz =>
      unfold tallyOutside
      rw [List.length_eq_zero]
      rw [List.filter_eq_nil_iff]
      intro j hj
      rw [hbs j (List.mem_range.1 hj)]
      decide
  have hloop : (discretise (fun q => Real.sqrt (q : ℝ)) w h ml sd sd isTarget
      isActive).elemStatus e = ElementStatusINSIDE := by
    unfold discretise
    dsimp only
    rw [computePointLengths_elemStatus]
    rw [ite_self]
    unfold discretiseLoop
    refine foldl_inv (fun s : BState ℝ => s.elemStatus e = ElementStatusINSIDE) _ _ _ ?_ ?_
    · exact hinit
    · intro s k hk hs
      by_cases hke : e = k
      · subst hke
        exact processElement_elemStatus_boundary _ _ _ _ _ _ _ _ _ hbs hs
      · rw [processElement_elemStatus_other _ _ _ _ _ _ _ _ _ _ hke]
        exact hs
  refine ⟨hinit, hloop, ?_⟩
  unfold elementArea
  rw [hloop]
  rw [if_pos (by decide)]

/-! ### The 4-cut case -/

theorem getD_snoc_lt {α : Type*} (l : List α) (a d : α) {n : Nat} (hn : n < l.length) :
    (l ++ [a]).getD n d = l.getD n d := by
  rw [List.getD_eq_getElem _ _ (by simp only [List.length_append]; omega),
    List.getD_eq_getElem _ _ hn]
  exact List.getElem_append_left hn

theorem getD_snoc_self {α : Type*} (l : List α) (a d : α) :
    (l ++ [a]).getD l.length d = a := by
  rw [List.getD_eq_getElem _ _ (by simp)]
  exact List.getElem_concat_length l a _ rfl _

theorem getD_snoc_snoc_first {α : Type*} (l : List α) (a b d : α) :
    ((l ++ [a]) ++ [b]).getD l.length d = a := by
  rw [getD_snoc_lt _ _ _ (by simp), getD_snoc_self]

theorem getD_snoc_snoc_self {α : Type*} (l : List α) (a b d : α) :
    ((l ++ [a]) ++ [b]).getD (l.length + 1) d = b := by
  have hlen : l.length + 1 = (l ++ [a]).length := by simp
  rw [hlen, getD_snoc_self]

theorem processEdge_cut_shape [Field R] (rt : ℚ → R) (w h : Nat) (ml : ℚ)
    (sd : Nat → ℚ) (isTarget : Bool) (isActive : Nat → Bool) (i : Nat)
    (acc : EdgeAcc R) (j : Nat)
    (hact : (isTarget || (isActive (elemNodes w i j) &&
      isActive (elemNodes w i ((j + 1) % 4)))) = true)
    (hcut : (nodeStatusOf sd (elemNodes w i j) |||
      nodeStatusOf sd (elemNodes w i ((j + 1) % 4))) = NodeStatusCUT) :
    (∃ idx, (processEdge rt w h ml sd isTarget isActive i acc j).cutPts =
      acc.cutPts ++ [idx]) ∧
    (processEdge rt w h ml sd isTarget isActive i acc j).st.segments =
      acc.st.segments := by
  unfold processEdge
  dsimp only
  rw [if_pos hact, if_pos hcut]
  split
  · exact ⟨⟨_, rfl⟩, rfl⟩
  · exact ⟨⟨_, rfl⟩, createPoint_fst_segments _ _ _ _ _ _⟩

theorem edgePhase_four_cut [Field R] (rt : ℚ → R) (w h : Nat) (ml : ℚ)
    (sd : Nat → ℚ) (isTarget : Bool) (isActive : Nat → Bool) (st : BState R) (i : Nat)
    (hact : ∀ j, j < 4 → (isTarget || (isActive (elemNodes w i j) &&
      isActive (elemNodes w i ((j + 1) % 4)))) = true)
    (hcut : ∀ j, j < 4 → (nodeStatusOf sd (elemNodes w i j) |||
      nodeStatusOf sd (elemNodes w i ((j + 1) % 4))) = NodeStatusCUT) :
    (edgePhase rt w h ml sd isTarget isActive st i).cutPts.length = 4 ∧
    (edgePhase rt w h ml sd isTarget isActive st i).st.segments = st.segments := by
  unfold edgePhase
  simp only [List.foldl_cons, List.foldl_nil]
  obtain ⟨⟨i0, h0⟩, hs0⟩ := processEdge_cut_shape rt w h ml sd isTarget isActive i
    ⟨st, []⟩ 0 (hact 0 (by omega)) (hcut 0 (by omega))
  obtain ⟨⟨i1, h1⟩, hs1⟩ := processEdge_cut_shape rt w h ml sd isTarget isActive i
    (processEdge rt w h ml sd isTarget isActive i ⟨st, []⟩ 0) 1
    (hact 1 (by omega)) (hcut 1 (by omega))
  obtain ⟨⟨i2, h2⟩, hs2⟩ := processEdge_cut_shape rt w h ml sd isTarget isActive i
    (processEdge rt w h ml sd isTarget isActive i
      (processEdge rt w h ml sd isTarget isActive i ⟨st, []⟩ 0) 1) 2
    (hact 2 (by omega)) (hcut 2 (by omega))
  obtain ⟨⟨i3, h3⟩, hs3⟩ := processEdge_cut_shape rt w h ml sd isTarget isActive i
    (processEdge rt w h ml sd isTarget isActive i
      (processEdge rt w h ml sd isTarget isActive i
        (processEdge rt w h ml sd isTarget isActive i ⟨st, []⟩ 0) 1) 2) 3
    (hact 3 (by omega)) (hcut 3 (by omega))
  constructor
  · rw [h3, h2, h1, h0]
    simp
  · rw [hs3, hs2, hs1, hs0]

/-- Claim C3: in the 4-cut case (all four element edges cut, i.e.
strictly alternating inside/outside corner statuses), `discretise` adds
exactly two boundary segments, pairs the four interpolated points by the
sign-sum rule of the source, and afterwards records centre-inside exactly
when the nodal signed-distance sum is positive, centre-outside otherwise.
No error path exists: the embedding is total and both branches append two
segments. -/
theorem C3_four_cut_case {R : Type} [Field R] (rt : ℚ → R) (w h : Nat) (ml : ℚ)
    (sd : Nat → ℚ) (isTarget : Bool) (isActive : Nat → Bool) (st : BState R) (i : Nat)
    (hstat : st.elemStatus i ≠ ElementStatusOUTSIDE)
    (hact : ∀ j, j < 4 → (isTarget || (isActive (elemNodes w i j) &&
      isActive (elemNodes w i ((j + 1) % 4)))) = true)
    (halt : (∀ j, j < 4 → nodeStatusOf sd (elemNodes w i j) =
              if j % 2 = 0 then NodeStatusINSIDE else NodeStatusOUTSIDE) ∨
            (∀ j, j < 4 → nodeStatusOf sd (elemNodes w i j) =
              if j % 2 = 0 then NodeStatusOUTSIDE else NodeStatusINSIDE)) :
    (edgePhase rt w h ml sd isTarget isActive st i).cutPts.length = 4 ∧
    (processElement rt w h ml sd isTarget isActive st i).segments.length =
      st.segments.length + 2 ∧
    (((nodeStatusOf sd (elemNodes w i 0) &&& NodeStatusINSIDE ≠ 0 ∧
        0 < sd (elemNodes w i 0) + sd (elemNodes w i 1) + sd (elemNodes w i 2) +
          sd (elemNodes w i 3)) ∨
      (nodeStatusOf sd (elemNodes w i 0) &&& NodeStatusOUTSIDE ≠ 0 ∧
        sd (elemNodes w i 0) + sd (elemNodes w i 1) + sd (elemNodes w i 2) +
          sd (elemNodes w i 3) < 0)) →
      (((processElement rt w h ml sd isTarget isActive st i).segments.getD
          st.segments.length default).start =
        (edgePhase rt w h ml sd isTarget isActive st i).cutPts.getD 0 0 ∧
       ((processElement rt w h ml sd isTarget isActive st i).segments.getD
          st.segments.length default).stop =
        (edgePhase rt w h ml sd isTarget isActive st i).cutPts.getD 1 0 ∧
       ((processElement rt w h ml sd isTarget isActive st i).segments.getD
          (st.segments.length + 1) default).start =
        (edgePhase rt w h ml sd isTarget isActive st i).cutPts.getD 2 0 ∧
       ((processElement rt w h ml sd isTarget isActive st i).segments.getD
          (st.segments.length + 1) default).stop =
        (edgePhase rt w h ml sd isTarget isActive st i).cutPts.getD 3 0)) ∧
    (¬((nodeStatusOf sd (elemNodes w i 0) &&& NodeStatusINSIDE ≠ 0 ∧
        0 < sd (elemNodes w i 0) + sd (elemNodes w i 1) + sd (elemNodes w i 2) +
          sd (elemNodes w i 3)) ∨
      (nodeStatusOf sd (elemNodes w i 0) &&& NodeStatusOUTSIDE ≠ 0 ∧
        sd (elemNodes w i 0) + sd (elemNodes w i 1) + sd (elemNodes w i 2) +
          sd (elemNodes w i 3) < 0)) →
      (((processElement rt w h ml sd isTarget isActive st i).segments.getD
          st.segments.length default).start =
        (edgePhase rt w h ml sd isTarget isActive st i).cutPts.getD 0 0 ∧
       ((processElement rt w h ml sd isTarget isActive st i).segments.getD
          st.segments.length default).stop =
        (edgePhase rt w h ml sd isTarget isActive st i).cutPts.getD 3 0 ∧
       ((processElement rt w h ml sd isTarget isActive st i).segments.getD
          (st.segments.length + 1) default).start =
        (edgePhase rt w h ml sd isTarget isActive st i).cutPts.getD 1 0 ∧
       ((processElement rt w h ml sd isTarget isActive st i).segments.getD
          (st.segments.length + 1) default).stop =
        (edgePhase rt w h ml sd isTarget isActive st i).cutPts.getD 2 0)) ∧
    (processElement rt w h ml sd isTarget isActive st i).elemStatus i =
      (if 0 < sd (elemNodes w i 0) + sd (elemNodes w i 1) + sd (elemNodes w i 2) +
          sd (elemNodes w i 3)
       then ElementStatusCENTREINSIDE else ElementStatusCENTREOUTSIDE) := by
  have hcut : ∀ j, j < 4 → (nodeStatusOf sd (elemNodes w i j) |||
      nodeStatusOf sd (elemNodes w i ((j + 1) % 4))) = NodeStatusCUT := by
    intro j hj
    have hj4 : j = 0 ∨ j = 1 ∨ j = 2 ∨ j = 3 := by omega
    rcases halt with hA | hA <;> rcases hj4 with rfl | rfl | rfl | rfl
    · show (nodeStatusOf sd (elemNodes w i 0) ||| nodeStatusOf sd (elemNodes w i 1)) =
        NodeStatusCUT
      rw [hA 0 (by omega), hA 1 (by omega)]
      decide
    · show (nodeStatusOf sd (elemNodes w i 1) ||| nodeStatusOf sd (elemNodes w i 2)) =
        NodeStatusCUT
      rw [hA 1 (by omega), hA 2 (by omega)]
      decide
    · show (nodeStatusOf sd (elemNodes w i 2) ||| nodeStatusOf sd (elemNodes w i 3)) =
        NodeStatusCUT
      rw [hA 2 (by omega), hA 3 (by omega)]
      decide
    · show (nodeStatusOf sd (elemNodes w i 3) ||| nodeStatusOf sd (elemNodes w i 0)) =
        NodeStatusCUT
      rw [hA 3 (by omega), hA 0 (by omega)]
      decide
    · show (nodeStatusOf sd (elemNodes w i 0) ||| nodeStatusOf sd (elemNodes w i 1)) =
        NodeStatusCUT
      rw [hA 0 (by omega), hA 1 (by omega)]
      decide
    · show (nodeStatusOf sd (elemNodes w i 1) ||| nodeStatusOf sd (elemNodes w i 2)) =
        NodeStatusCUT
      rw [hA 1 (by omega), hA 2 (by omega)]
      decide
    · show (nodeStatusOf sd (elemNodes w i 2) ||| nodeStatusOf sd (elemNodes w i 3)) =
        NodeStatusCUT
      rw [hA 2 (by omega), hA 3 (by omega)]
      decide
    · show (nodeStatusOf sd (elemNodes w i 3) ||| nodeStatusOf sd (elemNodes w i 0)) =
        NodeStatusCUT
      rw [hA 3 (by omega), hA 0 (by omega)]
      decide
  obtain ⟨hlen4, hsegA⟩ := edgePhase_four_cut rt w h ml sd isTarget isActive st i
    hact hcut
  unfold processElement
  dsimp only
  rw [if_pos hstat, if_neg (by rw [hlen4]; decide), if_neg (by rw [hlen4]; decide),
    if_pos hlen4]
  refine ⟨hlen4, ?_, ?_, ?_, ?_⟩
  · split
    · rw [addSegment_segments, addSegment_segments, hsegA]
      simp only [List.length_append, List.length_cons, List.length_nil]
    · rw [addSegment_segments, addSegment_segments, hsegA]
      simp only [List.length_append, List.length_cons, List.length_nil]
  · intro hcond
    rw [if_pos hcond]
    rw [addSegment_segments, addSegment_segments, hsegA]
    refine ⟨?_, ?_, ?_, ?_⟩
    · rw [getD_snoc_snoc_first]
    · rw [getD_snoc_snoc_first]
    · rw [getD_snoc_snoc_self]
    · rw [getD_snoc_snoc_self]
  · intro hcond
    rw [if_neg hcond]
    rw [addSegment_segments, addSegment_segments, hsegA]
    refine ⟨?_, ?_, ?_, ?_⟩
    · rw [getD_snoc_snoc_first]
    · rw [getD_snoc_snoc_first]
    · rw [getD_snoc_snoc_self]
    · rw [getD_snoc_snoc_self]
  · dsimp only
    rw [if_pos rfl]

/-- Witness for C3: the alternating-sign field on the 1 × 1 mesh makes
all four edges of element 0 cut, and the edge phase collects exactly four
interpolated points. -/
theorem C3_witness :
    ((elemStatusInit 1 sdAlternating 0 ≠ ElementStatusOUTSIDE) ∧
     (∀ j, j < 4 → nodeStatusOf sdAlternating (elemNodes 1 0 j) =
       if j % 2 = 0 then NodeStatusINSIDE else NodeStatusOUTSIDE)) ∧
    (edgePhase (fun q => (q : ℚ)) 1 1 (1/2) sdAlternating true (fun _ => false)
      { points := [], segments := [], length := 0, nodeBP := fun _ => [],
        elemStatus := elemStatusInit 1 sdAlternating, elemSegs := fun _ => [] }
      0).cutPts.length = 4 :=
  ⟨⟨of_decide_eq_true (by with_unfolding_all rfl),
    of_decide_eq_true (by with_unfolding_all rfl)⟩,
   (C3_four_cut_case (fun q => (q : ℚ)) 1 1 (1/2) sdAlternating true (fun _ => false)
     { points := [], segments := [], length := 0, nodeBP := fun _ => [],
       elemStatus := elemStatusInit 1 sdAlternating, elemSegs := fun _ => [] } 0
     (of_decide_eq_true (by with_unfolding_all rfl))
     (of_decide_eq_true (by with_unfolding_all rfl))
     (Or.inl (of_decide_eq_true (by with_unfolding_all rfl)))).1⟩

/-- Witness for C10: the all-zero signed-distance field on the 1 × 1 mesh
satisfies the hypotheses at element 0, whose area fraction is 1. -/
theorem C10_witness :
    (0 < nElements 1 1 ∧ ∀ j, j < 4 → |(fun _ => (0 : ℚ)) (elemNodes 1 0 j)| < 1/1000000) ∧
    elementArea 1 (nodeStatusOf (fun _ => (0 : ℚ)))
      (discretise (fun q => Real.sqrt (q : ℝ)) 1 1 (1/2) (fun _ => (0 : ℚ))
        (fun _ => (0 : ℚ)) true (fun _ => false)) 0 = 1 :=
  ⟨⟨by decide, by intro j hj; norm_num⟩,
    (C10_all_boundary_corners 1 1 (1/2) (fun _ => (0 : ℚ)) true (fun _ => false) 0
      (by decide) (by intro j hj; norm_num)).2.2⟩


/-- Element `i` of the final renormalisation pass at a non-domain point:
the weighted average divided by `rtr` of its squared norm. -/
theorem nvFinal_getD_nondomain {R : Type} [Field R] (rtr : R → R)
    (ps : List (BoundaryPoint R)) (a : NVAcc R) {i : Nat}
    (hi : i < ps.length) (hdom : (ps.getD i default).isDomain = false) :
    ((nvFinal rtr ps a).getD i default).normal =
      ((nvPre a i).1 /
         rtr ((nvPre a i).1 * (nvPre a i).1 + (nvPre a i).2 * (nvPre a i).2),
       (nvPre a i).2 /
         rtr ((nvPre a i).1 * (nvPre a i).1 + (nvPre a i).2 * (nvPre a i).2)) := by
  have hgd : ps.getD i default = ps[i] := List.getD_eq_getElem ps default hi
  rw [hgd] at hdom
  unfold nvFinal
  rw [List.getD_eq_getElem _ default
    (by rw [List.length_map, List.enum_length]; exact hi)]
  simp only [List.getElem_map, List.getElem_enum]
  dsimp only
  rw [if_pos hdom]
  rfl

/-- Element `i` of the final renormalisation pass at a domain-edge point:
the pass skips the point, leaving the accumulated value. -/
theorem nvFinal_getD_domain {R : Type} [Field R] (rtr : R → R)
    (ps : List (BoundaryPoint R)) (a : NVAcc R) {i : Nat}
    (hi : i < ps.length) (hdom : (ps.getD i default).isDomain = true) :
    ((nvFinal rtr ps a).getD i default).normal = a.normal i := by
  have hgd : ps.getD i default = ps[i] := List.getD_eq_getElem ps default hi
  rw [hgd] at hdom
  unfold nvFinal
  rw [List.getD_eq_getElem _ default
    (by rw [List.length_map, List.enum_length]; exact hi)]
  simp only [List.getElem_map, List.getElem_enum]
  dsimp only
  rw [if_neg (by rw [hdom]; exact fun h => Bool.noConfusion h)]


/-- Counterexample to C4: with an empty narrow band, the non-domain test
point keeps a zero accumulated normal and zero weight, and the
renormalisation pass stores the normal `(0, 0)` — Euclidean norm `0`, not
within `1e-6` of `1` (in C++ the divisions `0/0` make it NaN). -/
theorem C4_counterexample :
    ((nvTestState ℝ).points.getD 0 default).isDomain = false ∧
    ((computeNormalVectors Real.sqrt 2 2 sdGradX [] (nvTestState ℝ)).points.getD 0
        default).normal = ((0 : ℝ), (0 : ℝ)) ∧
    ¬(|Real.sqrt
        (((computeNormalVectors Real.sqrt 2 2 sdGradX [] (nvTestState ℝ)).points.getD 0
            default).normal.1 *
          ((computeNormalVectors Real.sqrt 2 2 sdGradX [] (nvTestState ℝ)).points.getD 0
            default).normal.1 +
         ((computeNormalVectors Real.sqrt 2 2 sdGradX [] (nvTestState ℝ)).points.getD 0
            default).normal.2 *
          ((computeNormalVectors Real.sqrt 2 2 sdGradX [] (nvTestState ℝ)).points.getD 0
            default).normal.2) - 1| ≤ 1/1000000) := by
  have hi : (0 : Nat) < (nvTestState ℝ).points.length := by
    unfold nvTestState nvTestPoints
    simp
  have hdom : ((nvTestState ℝ).points.getD 0 default).isDomain = false := by
    with_unfolding_all rfl
  have hn : ((computeNormalVectors Real.sqrt 2 2 sdGradX [] (nvTestState ℝ)).points.getD 0
      default).normal = ((0 : ℝ), (0 : ℝ)) := by
    show ((nvFinal Real.sqrt (nvTestState ℝ).points
        (nvAccum Real.sqrt 2 2 sdGradX (nvTestState ℝ).points (nvTestState ℝ).nodeBP
          [])).getD 0 default).normal = ((0 : ℝ), (0 : ℝ))
    rw [nvFinal_getD_nondomain Real.sqrt _ _ hi hdom]
    have hp : nvPre (nvAccum Real.sqrt 2 2 sdGradX (nvTestState ℝ).points
        (nvTestState ℝ).nodeBP []) 0 = ((0 : ℝ) / 0, (0 : ℝ) / 0) := rfl
    rw [hp]
    norm_num
  refine ⟨hdom, hn, ?_⟩
  rw [hn]
  norm_num [Real.sqrt_zero]


/-- C4 (amended): after `computeNormalVectors`, a non-domain point whose
weighted-average normal is nonzero carries a normal of exactly unit
Euclidean length, and a domain-edge point is skipped by the
renormalisation pass (its normal is the raw accumulated value). -/
theorem C4_unit_normals (w h : Nat) (sd : Nat → ℚ) (narrowBand : List Nat)
    (st : BState ℝ) (i : Nat) (hi : i < st.points.length) :
    (((st.points.getD i default).isDomain = false →
      nvPre (nvAccum Real.sqrt w h sd st.points st.nodeBP narrowBand) i ≠ (0, 0) →
      Real.sqrt
        (((computeNormalVectors Real.sqrt w h sd narrowBand st).points.getD i
            default).normal.1 *
          ((computeNormalVectors Real.sqrt w h sd narrowBand st).points.getD i
            default).normal.1 +
         ((computeNormalVectors Real.sqrt w h sd narrowBand st).points.getD i
            default).normal.2 *
          ((computeNormalVectors Real.sqrt w h sd narrowBand st).points.getD i
            default).normal.2) = 1)) ∧
    ((st.points.getD i default).isDomain = true →
      ((computeNormalVectors Real.sqrt w h sd narrowBand st).points.getD i
        default).normal =
      (nvAccum Real.sqrt w h sd st.points st.nodeBP narrowBand).normal i) := by
  constructor
  · intro hdom hpre
    set a := nvAccum Real.sqrt w h sd st.points st.nodeBP narrowBand with ha
    have hfin : ((computeNormalVectors Real.sqrt w h sd narrowBand st).points.getD i
        default).normal =
        ((nvPre a i).1 /
           Real.sqrt ((nvPre a i).1 * (nvPre a i).1 + (nvPre a i).2 * (nvPre a i).2),
         (nvPre a i).2 /
           Real.sqrt ((nvPre a i).1 * (nvPre a i).1 + (nvPre a i).2 * (nvPre a i).2)) :=
      nvFinal_getD_nondomain Real.sqrt st.points a hi hdom
    rw [hfin]
    set p1 := (nvPre a i).1 with hp1
    set p2 := (nvPre a i).2 with hp2
    have hs : 0 < p1 * p1 + p2 * p2 := by
      have hor : p1 ≠ 0 ∨ p2 ≠ 0 := by
        by_contra hcon
        push_neg at hcon
        exact hpre (Prod.ext_iff.mpr ⟨hcon.1, hcon.2⟩)
      rcases hor with h1 | h2
      · have := mul_self_nonneg p2
        have := mul_self_pos.mpr h1
        linarith
      · have := mul_self_nonneg p1
        have := mul_self_pos.mpr h2
        linarith
    have hr : Real.sqrt (p1 * p1 + p2 * p2) ≠ 0 :=
      ne_of_gt (Real.sqrt_pos.mpr hs)
    have hrr : Real.sqrt (p1 * p1 + p2 * p2) * Real.sqrt (p1 * p1 + p2 * p2) =
        p1 * p1 + p2 * p2 := Real.mul_self_sqrt hs.le
    have hone : p1 / Real.sqrt (p1 * p1 + p2 * p2) *
          (p1 / Real.sqrt (p1 * p1 + p2 * p2)) +
        p2 / Real.sqrt (p1 * p1 + p2 * p2) *
          (p2 / Real.sqrt (p1 * p1 + p2 * p2)) = 1 := by
      rw [div_mul_div_comm, div_mul_div_comm, div_add_div_same, hrr]
      exact div_self (ne_of_gt hs)
    dsimp only
    rw [hone, Real.sqrt_one]
  · intro hdom
    exact nvFinal_getD_domain Real.sqrt st.points _ hi hdom


/-- Witness for C4: on the 2 × 2 mesh with the gradient field `sdGradX`
and narrow band `[4]`, the test point is non-domain, its weighted-average
normal is nonzero, and the stored normal has unit Euclidean norm. -/
theorem C4_witness :
    (((nvTestState ℝ).points.getD 0 default).isDomain = false ∧
     nvPre (nvAccum Real.sqrt 2 2 sdGradX (nvTestState ℝ).points
       (nvTestState ℝ).nodeBP [4]) 0 ≠ (0, 0)) ∧
    Real.sqrt
      (((computeNormalVectors Real.sqrt 2 2 sdGradX [4] (nvTestState ℝ)).points.getD 0
          default).normal.1 *
        ((computeNormalVectors Real.sqrt 2 2 sdGradX [4] (nvTestState ℝ)).points.getD 0
          default).normal.1 +
       ((computeNormalVectors Real.sqrt 2 2 sdGradX [4] (nvTestState ℝ)).points.getD 0
          default).normal.2 *
        ((computeNormalVectors Real.sqrt 2 2 sdGradX [4] (nvTestState ℝ)).points.getD 0
          default).normal.2) = 1 := by
  have hi : (0 : Nat) < (nvTestState ℝ).points.length := by
    unfold nvTestState nvTestPoints
    simp
  have hdom : ((nvTestState ℝ).points.getD 0 default).isDomain = false := by
    with_unfolding_all rfl
  have hn : (nvAccum Real.sqrt 2 2 sdGradX (nvTestState ℝ).points
      (nvTestState ℝ).nodeBP [4]).normal 0 =
      (0 + ((1 : ℚ) : ℝ) / Real.sqrt ((1 : ℚ) : ℝ) / ((1/4 : ℚ) : ℝ),
       0 + ((0 : ℚ) : ℝ) / Real.sqrt ((1 : ℚ) : ℝ) / ((1/4 : ℚ) : ℝ)) := by
    with_unfolding_all rfl
  have hw : (nvAccum Real.sqrt 2 2 sdGradX (nvTestState ℝ).points
      (nvTestState ℝ).nodeBP [4]).weight 0 = 0 + 1 / ((1/4 : ℚ) : ℝ) := by
    with_unfolding_all rfl
  have hc : (0 + ((1 : ℚ) : ℝ) / Real.sqrt ((1 : ℚ) : ℝ) / ((1/4 : ℚ) : ℝ)) /
      (0 + 1 / ((1/4 : ℚ) : ℝ)) = 1 := by
    push_cast
    rw [Real.sqrt_one]
    norm_num
  have hpre : nvPre (nvAccum Real.sqrt 2 2 sdGradX (nvTestState ℝ).points
      (nvTestState ℝ).nodeBP [4]) 0 ≠ (0, 0) := by
    unfold nvPre
    rw [hn, hw]
    intro hEq
    have h1 := congrArg Prod.fst hEq
    dsimp at h1
    rw [hc] at h1
    exact one_ne_zero h1
  exact ⟨⟨hdom, hpre⟩,
    (C4_unit_normals 2 2 sdGradX [4] (nvTestState ℝ) 0 hi).1 hdom hpre⟩

/-- C8: at a configuration with a zero normalisation divisor — the
all-zero signed-distance field, whose central-difference gradient at the
narrow-band node 4 is `(0, 0)`, so the gradient magnitude divides zero —
`computeNormalVectors` completes without signalling any error and
silently stores the normal `(0, 0)` of norm `0` for the non-domain test
point (in C++ the same divisions produce NaN components). -/
theorem C8_silent_zero_divisor :
    gradAt 2 (fun _ => (0 : ℚ)) 4 = (0, 0) ∧
    ((computeNormalVectors Real.sqrt 2 2 (fun _ => (0 : ℚ)) [4]
        (nvTestState ℝ)).points.getD 0 default).normal = ((0 : ℝ), (0 : ℝ)) ∧
    Real.sqrt
      (((computeNormalVectors Real.sqrt 2 2 (fun _ => (0 : ℚ)) [4]
          (nvTestState ℝ)).points.getD 0 default).normal.1 *
        ((computeNormalVectors Real.sqrt 2 2 (fun _ => (0 : ℚ)) [4]
          (nvTestState ℝ)).points.getD 0 default).normal.1 +
       ((computeNormalVectors Real.sqrt 2 2 (fun _ => (0 : ℚ)) [4]
          (nvTestState ℝ)).points.getD 0 default).normal.2 *
        ((computeNormalVectors Real.sqrt 2 2 (fun _ => (0 : ℚ)) [4]
          (nvTestState ℝ)).points.getD 0 default).normal.2) = 0 := by
  have hi : (0 : Nat) < (nvTestState ℝ).points.length := by
    unfold nvTestState nvTestPoints
    simp
  have hdom : ((nvTestState ℝ).points.getD 0 default).isDomain = false := by
    with_unfolding_all rfl
  have hn : (nvAccum Real.sqrt 2 2 (fun _ => (0 : ℚ)) (nvTestState ℝ).points
      (nvTestState ℝ).nodeBP [4]).normal 0 =
      (0 + ((0 : ℚ) : ℝ) / Real.sqrt ((0 : ℚ) : ℝ) / ((1/4 : ℚ) : ℝ),
       0 + ((0 : ℚ) : ℝ) / Real.sqrt ((0 : ℚ) : ℝ) / ((1/4 : ℚ) : ℝ)) := by
    with_unfolding_all rfl
  have hw : (nvAccum Real.sqrt 2 2 (fun _ => (0 : ℚ)) (nvTestState ℝ).points
      (nvTestState ℝ).nodeBP [4]).weight 0 = 0 + 1 / ((1/4 : ℚ) : ℝ) := by
    with_unfolding_all rfl
  have hp : nvPre (nvAccum Real.sqrt 2 2 (fun _ => (0 : ℚ)) (nvTestState ℝ).points
      (nvTestState ℝ).nodeBP [4]) 0 = ((0 : ℝ), (0 : ℝ)) := by
    unfold nvPre
    rw [hn, hw]
    push_cast
    norm_num
  have h2 : ((computeNormalVectors Real.sqrt 2 2 (fun _ => (0 : ℚ)) [4]
      (nvTestState ℝ)).points.getD 0 default).normal = ((0 : ℝ), (0 : ℝ)) := by
    show ((nvFinal Real.sqrt (nvTestState ℝ).points
        (nvAccum Real.sqrt 2 2 (fun _ => (0 : ℚ)) (nvTestState ℝ).points
          (nvTestState ℝ).nodeBP [4])).getD 0 default).normal = ((0 : ℝ), (0 : ℝ))
    rw [nvFinal_getD_nondomain Real.sqrt _ _ hi hdom, hp]
    norm_num
  refine ⟨of_decide_eq_true (by with_unfolding_all rfl), h2, ?_⟩
  rw [h2]
  norm_num [Real.sqrt_zero]

end Slsm
